import Mathlib

/-!
# Verification of the go-critic contrib checkers

A shallow embedding of five lint checkers (`blankParam`, `boolFuncPrefix`,
`importPackageName`, `indexOnlyLoop`, `sqlRowsClose`) and of the parts of
`go/ast`, `go/types` and the Go runtime they rely on, followed by theorems
about what each checker reports.

Conventions of the embedding:
* pointers that the checkers compare (`*ast.Object`, `types.Object`,
  `*types.Scope`) are opaque handles, compared by handle;
* a nil pointer or nil interface is `none`;
* a run that would stop with a Go runtime panic is an `Outcome.panic`;
* the iteration order of a Go map is chosen by an explicit `seed`;
* helpers of the package that are not part of the five source files
  (`identOf`, `qualifiedName`) and library tables (`unicode.ToLower` on
  non-ASCII runes) are fields of `CheckerContext`, so every theorem holds for
  every implementation of them.
-/

set_option autoImplicit false

namespace checkers

/-! ## go/ast -/

/-- Handle of an `*ast.Object`, the declaration the parser resolved. -/
abbrev AstObject := Nat

/-- Handle of a `types.Object`, the declaration the type checker resolved. -/
abbrev Object := Nat

/-- Handle of a `*types.Scope`. -/
abbrev Scope := Nat

/-- An `*ast.Ident`: `pos` tells occurrences of the same name apart, `obj` is
the `Obj` field (nil when the parser resolved nothing). -/
structure Ident where
  name : String
  pos : Nat
  obj : Option AstObject
deriving DecidableEq, Repr

mutual
/-- Expressions of `go/ast`. The node kinds the checkers and `ast.Walk` treat
specially have their own constructor; every other kind is `other`, with a tag
standing for the Go node type and its tokens, and the children in the order
`ast.Walk` visits them. -/
inductive Expr where
  | ident (id : Ident)
  | selector (x : Expr) (sel : Ident)
  | index (x : Expr) (index : Expr)
  | call (fn : Expr) (args : List Expr) (ellipsis : Bool)
  | funcLit (type : Expr) (body : List Stmt)
  | other (kind : Nat) (children : List Node)
/-- Statements of `go/ast`. A `*ast.BlockStmt` field is its statement list, and
the `*ast.CallExpr` of a `defer` is given by its three fields. -/
inductive Stmt where
  | assign (lhs : List Expr) (rhs : List Expr)
  | ret (results : List Expr)
  | exprStmt (x : Expr)
  | deferStmt (fn : Expr) (args : List Expr) (ellipsis : Bool)
  | range (key : Option Expr) (value : Option Expr) (x : Expr) (body : List Stmt)
  | block (list : List Stmt)
  | other (kind : Nat) (children : List Node)
/-- An `ast.Node` seen by an `ast.Inspect` callback. -/
inductive Node where
  | expr (e : Expr)
  | stmt (s : Stmt)
end

/-- An `*ast.Field`: the names declared (none for an anonymous parameter or
result) and the type expression. -/
structure Field where
  names : List Ident
  type : Expr

/-- An `*ast.FieldList` that is not nil. -/
structure FieldList where
  list : List Field

/-- An `*ast.FuncType`; `none` is a nil field list. -/
structure FuncType where
  params : Option FieldList
  results : Option FieldList

/-- An `*ast.FuncDecl`; `body = none` is a declaration without body. -/
structure FuncDecl where
  name : Ident
  type : FuncType
  body : Option (List Stmt)

/-- An `*ast.ImportSpec`: the alias, if any, and the path literal as written,
quotes included. -/
structure ImportSpec where
  name : Option Ident
  pathValue : String
  pos : Nat

/-- An `*ast.File`, as far as the checkers read it. -/
structure File where
  imports : List ImportSpec

/-- The method `(*ast.FieldList).NumFields`: a field counts once per name, an
anonymous field once; a nil list has no fields. -/
def NumFields : Option FieldList → Nat
  | none => 0
  | some f => f.list.foldl (fun n g => n + (if g.names.length = 0 then 1 else g.names.length)) 0

section Inspect

variable {σ : Type} (f : Node → σ → σ × Bool)

mutual
/-- The function `ast.Inspect(e, f)` on an expression, for a callback that
keeps a state: `f` is called on the node, and when it answers true the
children are walked in the order of `ast.Walk`. The selector identifier, the
call of a `defer` and a block that is a field are nodes of their own. (The
closing call `f(nil)` is left out: the callbacks here change nothing on a nil
node.) -/
def inspectExpr : Expr → σ → σ
  | e, s =>
    if (f (.expr e) s).2 then
      match e with
      | .ident _ => (f (.expr e) s).1
      | .selector x sel => (f (.expr (.ident sel)) (inspectExpr x (f (.expr e) s).1)).1
      | .index x i => inspectExpr i (inspectExpr x (f (.expr e) s).1)
      | .call fn args _ => inspectExprs args (inspectExpr fn (f (.expr e) s).1)
      | .funcLit t b =>
        if (f (.stmt (.block b)) (inspectExpr t (f (.expr e) s).1)).2 then
          inspectStmts b (f (.stmt (.block b)) (inspectExpr t (f (.expr e) s).1)).1
        else (f (.stmt (.block b)) (inspectExpr t (f (.expr e) s).1)).1
      | .other _ cs => inspectNodes cs (f (.expr e) s).1
    else (f (.expr e) s).1
/-- The function `ast.Inspect(st, f)` on a statement. -/
def inspectStmt : Stmt → σ → σ
  | st, s =>
    if (f (.stmt st) s).2 then
      match st with
      | .assign l r => inspectExprs r (inspectExprs l (f (.stmt st) s).1)
      | .ret rs => inspectExprs rs (f (.stmt st) s).1
      | .exprStmt x => inspectExpr x (f (.stmt st) s).1
      | .deferStmt fn args ell =>
        if (f (.expr (.call fn args ell)) (f (.stmt st) s).1).2 then
          inspectExprs args (inspectExpr fn (f (.expr (.call fn args ell)) (f (.stmt st) s).1).1)
        else (f (.expr (.call fn args ell)) (f (.stmt st) s).1).1
      | .range k v x b =>
        if (f (.stmt (.block b))
            (inspectExpr x (inspectOpt v (inspectOpt k (f (.stmt st) s).1)))).2 then
          inspectStmts b (f (.stmt (.block b))
            (inspectExpr x (inspectOpt v (inspectOpt k (f (.stmt st) s).1)))).1
        else (f (.stmt (.block b))
            (inspectExpr x (inspectOpt v (inspectOpt k (f (.stmt st) s).1)))).1
      | .block l => inspectStmts l (f (.stmt st) s).1
      | .other _ cs => inspectNodes cs (f (.stmt st) s).1
    else (f (.stmt st) s).1
/-- The walk of an optional child (`Key`, `Value`), skipped when nil. -/
def inspectOpt : Option Expr → σ → σ
  | none, s => s
  | some e, s => inspectExpr e s
/-- The walk of an expression list. -/
def inspectExprs : List Expr → σ → σ
  | [], s => s
  | e :: es, s => inspectExprs es (inspectExpr e s)
/-- The walk of a statement list. -/
def inspectStmts : List Stmt → σ → σ
  | [], s => s
  | st :: sts, s => inspectStmts sts (inspectStmt st s)
/-- The walk of the children of a node of another kind. -/
def inspectNodes : List Node → σ → σ
  | [], s => s
  | .expr e :: ns, s => inspectNodes ns (inspectExpr e s)
  | .stmt st :: ns, s => inspectNodes ns (inspectStmt st s)
end

/-- The function `ast.Inspect(b, f)` on the `*ast.BlockStmt` with list `l`, as
it is also inlined above for the body of a function literal and of a range
statement. -/
def inspectBlock (l : List Stmt) (s : σ) : σ :=
  if (f (.stmt (.block l)) s).2 then inspectStmts f l (f (.stmt (.block l)) s).1
  else (f (.stmt (.block l)) s).1

end Inspect

mutual
/-- The function `astequal.Expr`: equality of shape, where identifiers are
equal when their names are, whatever they resolve to. -/
def astequalExpr : Expr → Expr → Bool
  | .ident x, e =>
    match e with
    | .ident y => decide (x.name = y.name)
    | _ => false
  | .selector x s, e =>
    match e with
    | .selector y t => decide (s.name = t.name) && astequalExpr x y
    | _ => false
  | .index x i, e =>
    match e with
    | .index y j => astequalExpr x y && astequalExpr i j
    | _ => false
  | .call fn a ell, e =>
    match e with
    | .call gn b ell2 => astequalExpr fn gn && astequalExprs a b && decide (ell = ell2)
    | _ => false
  | .funcLit t b, e =>
    match e with
    | .funcLit u c => astequalExpr t u && astequalStmts b c
    | _ => false
  | .other k cs, e =>
    match e with
    | .other l ds => decide (k = l) && astequalNodes cs ds
    | _ => false
termination_by structural x => x
/-- The function `astequal.Stmt`. -/
def astequalStmt : Stmt → Stmt → Bool
  | .assign l r, st =>
    match st with
    | .assign l2 r2 => astequalExprs l l2 && astequalExprs r r2
    | _ => false
  | .ret rs, st =>
    match st with
    | .ret rs2 => astequalExprs rs rs2
    | _ => false
  | .exprStmt x, st =>
    match st with
    | .exprStmt y => astequalExpr x y
    | _ => false
  | .deferStmt fn a ell, st =>
    match st with
    | .deferStmt gn b ell2 => astequalExpr fn gn && astequalExprs a b && decide (ell = ell2)
    | _ => false
  | .range k v x b, st =>
    match st with
    | .range k2 v2 x2 b2 =>
      astequalOpt k k2 && astequalOpt v v2 && astequalExpr x x2 && astequalStmts b b2
    | _ => false
  | .block l, st =>
    match st with
    | .block l2 => astequalStmts l l2
    | _ => false
  | .other k cs, st =>
    match st with
    | .other l ds => decide (k = l) && astequalNodes cs ds
    | _ => false
termination_by structural x => x
/-- Equality of optional children: both nil, or both present and equal. -/
def astequalOpt : Option Expr → Option Expr → Bool
  | none, o => o.isNone
  | some x, o =>
    match o with
    | some y => astequalExpr x y
    | none => false
termination_by structural x => x
/-- Equality of expression lists, element by element. -/
def astequalExprs : List Expr → List Expr → Bool
  | [], l => l.isEmpty
  | x :: xs, l =>
    match l with
    | y :: ys => astequalExpr x y && astequalExprs xs ys
    | [] => false
termination_by structural x => x
/-- Equality of statement lists, element by element. -/
def astequalStmts : List Stmt → List Stmt → Bool
  | [], l => l.isEmpty
  | x :: xs, l =>
    match l with
    | y :: ys => astequalStmt x y && astequalStmts xs ys
    | [] => false
termination_by structural x => x
/-- Equality of the children of nodes of another kind. -/
def astequalNodes : List Node → List Node → Bool
  | [], l => l.isEmpty
  | .expr x :: xs, l =>
    match l with
    | .expr y :: ys => astequalExpr x y && astequalNodes xs ys
    | _ => false
  | .stmt x :: xs, l =>
    match l with
    | .stmt y :: ys => astequalStmt x y && astequalNodes xs ys
    | _ => false
termination_by structural x => x
end

/-! ## go/types -/

/-- The `types.BasicKind` values (`Str` is `types.String`). -/
inductive BasicKind where
  | Invalid | Bool | Int | Int8 | Int16 | Int32 | Int64
  | Uint | Uint8 | Uint16 | Uint32 | Uint64 | Uintptr
  | Float32 | Float64 | Complex64 | Complex128 | Str | UnsafePointer
  | UntypedBool | UntypedInt | UntypedRune | UntypedFloat | UntypedComplex
  | UntypedString | UntypedNil
deriving DecidableEq, Repr

/-- A `types.Type`, by dynamic type: the checkers ask only for the dynamic
type, the element type and the printed form. `other` is any further kind of
type, given by its printed form. -/
inductive GoType where
  | basic (kind : BasicKind)
  | pointer (elem : GoType)
  | slice (elem : GoType)
  | array (len : Nat) (elem : GoType)
  | map (key : GoType) (elem : GoType)
  | named (pkgPath : Option String) (name : String)
  | other (repr : String)
deriving DecidableEq, Repr

/-- The printed name of a basic type. -/
def BasicKind.name : BasicKind → String
  | .Invalid => "invalid type" | .Bool => "bool" | .Int => "int" | .Int8 => "int8"
  | .Int16 => "int16" | .Int32 => "int32" | .Int64 => "int64" | .Uint => "uint"
  | .Uint8 => "uint8" | .Uint16 => "uint16" | .Uint32 => "uint32" | .Uint64 => "uint64"
  | .Uintptr => "uintptr" | .Float32 => "float32" | .Float64 => "float64"
  | .Complex64 => "complex64" | .Complex128 => "complex128" | .Str => "string"
  | .UnsafePointer => "unsafe.Pointer" | .UntypedBool => "untyped bool"
  | .UntypedInt => "untyped int" | .UntypedRune => "untyped rune"
  | .UntypedFloat => "untyped float" | .UntypedComplex => "untyped complex"
  | .UntypedString => "untyped string" | .UntypedNil => "untyped nil"

/-- The function `types.TypeString` without qualifier, which is what the
method `String()` of a type returns. -/
def TypeString : GoType → String
  | .basic k => k.name
  | .pointer e => "*" ++ TypeString e
  | .slice e => "[]" ++ TypeString e
  | .array n e => "[" ++ toString n ++ "]" ++ TypeString e
  | .map k e => "map[" ++ TypeString k ++ "]" ++ TypeString e
  | .named (some p) n => p ++ "." ++ n
  | .named none n => n
  | .other r => r

/-- A `*types.Package` in the list `Pkg.Imports()`. -/
structure Package where
  path : String
  name : String
deriving DecidableEq, Repr

/-! ## lintpack -/

/-- What a checker reads through `lintpack.CheckerContext`, together with the
package helpers and library tables that are not among the five source files. -/
structure CheckerContext where
  /-- The keys of the map `TypesInfo.Uses`, in the order a `range` yields them. -/
  uses : List Ident
  /-- The method `TypesInfo.ObjectOf` on an identifier that is not nil. -/
  objectOf : Ident → Option Object
  /-- The method `TypesInfo.TypeOf`; `none` is a nil type. -/
  typeOf : Expr → Option GoType
  /-- The method `types.Object.Name`. -/
  objName : Object → String
  /-- The method `types.Object.Type`. -/
  objType : Object → GoType
  /-- The method `types.Object.Parent`. -/
  objParent : Object → Option Scope
  /-- The list `Pkg.Imports()`. -/
  pkgImports : List Package
  /-- Package helper `identOf` (not among the sources); `none` is a nil result. -/
  identOf : Expr → Option Ident
  /-- Package helper `qualifiedName` (not among the sources). -/
  qualifiedName : Expr → String
  /-- Library table `unicode.ToLower`, used on runes outside ASCII. -/
  unicodeToLower : Char → Char

/-- The node a warning is anchored at. -/
inductive WarnNode where
  | ident (id : Ident)
  | field (f : Field)
  | funcDecl (d : FuncDecl)
  | importSpec (s : ImportSpec)
  | stmt (s : Stmt)
  | scope (s : Option Scope)

/-- An argument of the format string of a warning. -/
inductive FmtArg where
  | node (n : Node)
  | str (s : String)

/-- One call of `ctx.Warn(node, format, args...)`. -/
structure Warning where
  node : WarnNode
  format : String
  args : List FmtArg

/-- How a visit ends: it returns, or the Go runtime panics; either way with the
warnings reported so far. -/
inductive Outcome where
  | done (warnings : List Warning)
  | panic (warnings : List Warning)

/-- The warnings reported during a visit. -/
def Outcome.warnings : Outcome → List Warning
  | .done ws => ws
  | .panic ws => ws

/-- The expression `ctx.TypesInfo.ObjectOf(identOf(x))`; `ObjectOf(nil)` is nil. -/
def objectOfIdentOf (ctx : CheckerContext) (x : Expr) : Option Object :=
  match ctx.identOf x with
  | none => none
  | some id => ctx.objectOf id

/-! ## Go runtime: strings and maps -/

/-- The function `unicode.ToLower` on one rune: ASCII is handled inline, the
rest by the case table. -/
def toLowerRune (ctx : CheckerContext) (c : Char) : Char :=
  if c.toNat < 128 then
    (if 65 ≤ c.toNat ∧ c.toNat ≤ 90 then Char.ofNat (c.toNat + 32) else c)
  else ctx.unicodeToLower c

/-- The function `strings.ToLower`. -/
def ToLower (ctx : CheckerContext) (s : String) : String :=
  String.mk (s.data.map (toLowerRune ctx))

/-- The function `strings.HasPrefix`. -/
def HasPrefix (s : String) (p : String) : Bool :=
  p.data.isPrefixOf s.data

/-- The function `strings.Trim`: drops the leading and trailing runes that are
in `cutset`. -/
def Trim (s : String) (cutset : String) : String :=
  String.mk
    (((s.data.dropWhile (fun c => cutset.data.contains c)).reverse.dropWhile
      (fun c => cutset.data.contains c)).reverse)

/-- A Go map as the list of its entries, keys pairwise distinct. -/
abbrev GoMap (κ : Type) (ν : Type) := List (κ × ν)

/-- The test `_, ok := m[k]`. -/
def GoMap.has {κ ν : Type} [DecidableEq κ] (m : GoMap κ ν) (k : κ) : Bool :=
  m.any (fun e => decide (e.1 = k))

/-- The builtin `delete(m, k)`. -/
def GoMap.delete {κ ν : Type} [DecidableEq κ] (m : GoMap κ ν) (k : κ) : GoMap κ ν :=
  m.filter (fun e => decide (e.1 ≠ k))

/-- The assignment `m[k] = v`. -/
def GoMap.set {κ ν : Type} [DecidableEq κ] (m : GoMap κ ν) (k : κ) (v : ν) : GoMap κ ν :=
  GoMap.delete m k ++ [(k, v)]

/-- The entries of a map in the order a `range` yields them. Go leaves the
order unspecified: `seed` picks one of the orderings of the entries. -/
def GoMap.range {κ ν : Type} (seed : Nat) (m : GoMap κ ν) : List (κ × ν) :=
  m.permutations.getD (seed % m.permutations.length) m

/-! ## blankParam_checker.go -/

namespace blankParamChecker

/-- The method `blankParamChecker.warn`. -/
def warn (param : Ident) : Warning :=
  ⟨.ident param, "rename `%s` to `_`", [.node (.expr (.ident param))]⟩

/-- The method `blankParamChecker.warnUnnamed`. -/
def warnUnnamed (n : Field) : Warning :=
  ⟨.field n, "consider to name parameters as `_`", []⟩

/-- The inner loop `for _, id := range p.Names` of the collecting loop. -/
def addNames (objToIdent : GoMap (Option AstObject) Ident) (names : List Ident) :
    GoMap (Option AstObject) Ident :=
  names.foldl (fun m id => if id.name ≠ "_" then GoMap.set m id.obj id else m) objToIdent

/-- The loop `for _, p := range params.List`: the filled map, or the field
without names at which the loop warns and the visit returns. -/
def collectParams : List Field → GoMap (Option AstObject) Ident →
    Except Field (GoMap (Option AstObject) Ident)
  | [], objToIdent => .ok objToIdent
  | p :: ps, objToIdent =>
    if p.names.length = 0 then .error p
    else collectParams ps (addNames objToIdent p.names)

/-- The loop `for id := range c.ctx.TypesInfo.Uses`: the map that is left, or
`none` when the loop returns from the visit because the map became empty. -/
def removeUsed : List Ident → GoMap (Option AstObject) Ident →
    Option (GoMap (Option AstObject) Ident)
  | [], objToIdent => some objToIdent
  | id :: ids, objToIdent =>
    if GoMap.has objToIdent id.obj then
      if (GoMap.delete objToIdent id.obj).length = 0 then none
      else removeUsed ids (GoMap.delete objToIdent id.obj)
    else removeUsed ids objToIdent

/-- The method `blankParamChecker.VisitFuncDecl`; `seed` fixes the order in
which the last loop ranges over the map. -/
def VisitFuncDecl (ctx : CheckerContext) (seed : Nat) (decl : FuncDecl) : List Warning :=
  match decl.body, decl.type.params with
  | none, _ => []
  | some _, none => []
  | some _, some params =>
    if NumFields (some params) = 0 then []
    else
      match collectParams params.list [] with
      | .error p => [warnUnnamed p]
      | .ok objToIdent =>
        match removeUsed ctx.uses objToIdent with
        | none => []
        | some left => (GoMap.range seed left).map (fun e => warn e.2)

end blankParamChecker

/-! ## boolFuncPrefix_checker.go -/

namespace boolFuncPrefixChecker

/-- The method `boolFuncPrefixChecker.warn`. -/
def warn (fn : FuncDecl) : Warning :=
  ⟨.funcDecl fn, "consider to add Is/Has/Contains prefix to function name", []⟩

/-- The method `boolFuncPrefixChecker.isBoolType`. -/
def isBoolType (ctx : CheckerContext) (expr : Expr) : Bool :=
  match ctx.typeOf expr with
  | some (.basic kind) => decide (kind = BasicKind.Bool)
  | _ => false

/-- The method `boolFuncPrefixChecker.hasProperPrefix`. -/
def hasProperPrefix (ctx : CheckerContext) (name : String) : Bool :=
  if ["exit", "quit"].any (fun ex => decide (ToLower ctx name = ex)) then true
  else if ["is", "has", "contains", "check", "get", "should", "need", "may", "should"].any
      (fun p => HasPrefix (ToLower ctx name) p) then true
  else false

/-- The method `boolFuncPrefixChecker.VisitFuncDecl`. The conditions are tried
from left to right, and `results.List[0]` panics when the result list is nil
or empty. -/
def VisitFuncDecl (ctx : CheckerContext) (decl : FuncDecl) : Outcome :=
  if NumFields decl.type.params > 0 then .done []
  else if NumFields decl.type.results ≠ 1 then .done []
  else
    match decl.type.results with
    | none => .panic []
    | some results =>
      match results.list with
      | [] => .panic []
      | first :: _ =>
        if !isBoolType ctx first.type then .done []
        else if hasProperPrefix ctx decl.name.name then .done []
        else .done [warn decl]

end boolFuncPrefixChecker

/-! ## importPackageName_checker.go -/

namespace importPackageNameChecker

/-- The method `importPackageNameChecker.warn`. -/
def warn (cause : ImportSpec) : Warning :=
  ⟨.importSpec cause, "unnecessary rename of import package", []⟩

/-- The inner loop of `WalkFile`: the name of the first imported package with
the path of `imp`, or the zero value of `pkgName` when the loop ends without
a match. -/
def findPkgName (imp : ImportSpec) : List Package → String
  | [] => ""
  | pkgImport :: rest =>
    if pkgImport.path = Trim imp.pathValue "\"" then pkgImport.name
    else findPkgName imp rest

/-- The body of the loop over `file.Imports`: the warnings it adds. -/
def checkImport (ctx : CheckerContext) (imp : ImportSpec) : List Warning :=
  match imp.name with
  | none => []
  | some name => if name.name = findPkgName imp ctx.pkgImports then [warn imp] else []

/-- The method `importPackageNameChecker.WalkFile`. -/
def WalkFile (ctx : CheckerContext) (file : File) : List Warning :=
  file.imports.foldl (fun ws imp => ws ++ checkImport ctx imp) []

end importPackageNameChecker

/-! ## indexOnlyLoop_checker.go -/

/-- The function `typep.IsPointer`: the type is a `*types.Pointer`. -/
def IsPointer : GoType → Bool
  | .pointer _ => true
  | _ => false

namespace indexOnlyLoopChecker

/-- The method `indexOnlyLoopChecker.elemTypeIsPtr`. -/
def elemTypeIsPtr (ctx : CheckerContext) (obj : Object) : Bool :=
  match ctx.objType obj with
  | .slice elem => IsPointer elem
  | .array _ elem => IsPointer elem
  | _ => false

/-- The method `indexOnlyLoopChecker.warn`. -/
def warn (x : Stmt) (key : Expr) (iterated : String) : Warning :=
  ⟨.stmt x, "%s occurs more than once in the loop; consider using for _, value := range %s",
    [.node (.expr key), .str iterated]⟩

/-- The function literal passed to `ast.Inspect` in `VisitStmt`; the state is
the captured variable `count`. -/
def countIndex (ctx : CheckerContext) (key : Expr) (iterated : Object) (n : Node)
    (count : Nat) : Nat × Bool :=
  match n with
  | .expr (.index x index) =>
    if !astequalExpr index key then (count, true)
    else if some iterated = objectOfIdentOf ctx x then (count + 1, decide (count + 1 < 2))
    else (count, decide (count < 2))
  | _ => (count, decide (count < 2))

/-- The method `indexOnlyLoopChecker.VisitStmt`. -/
def VisitStmt (ctx : CheckerContext) (stmt : Stmt) : List Warning :=
  match stmt with
  | .range (some key) none x body =>
    match objectOfIdentOf ctx x with
    | none => []
    | some iterated =>
      if !elemTypeIsPtr ctx iterated then []
      else if inspectBlock (countIndex ctx key iterated) body 0 > 1 then
        [warn stmt key (ctx.objName iterated)]
      else []
  | _ => []

end indexOnlyLoopChecker

/-! ## sqlRowsClose_checker.go -/

namespace sqlRowsCloseChecker

/-- The constant `rowsTypePTR`. -/
def rowsTypePTR : String := "*database/sql.Rows"

/-- The three lists `VisitFuncDecl` fills while it scans the body; an entry
`none` is a nil `types.Object`. -/
structure Vars where
  localVars : List (Option Object)
  returnVars : List (Option Object)
  closeVars : List (Option Object)

/-- The method `sqlRowsCloseChecker.getType`. -/
def getType (ctx : CheckerContext) (x : Expr) : Option Object :=
  objectOfIdentOf ctx x

/-- The method `sqlRowsCloseChecker.getCloseSelectorExpr`: the fields `X` and
`Sel` of the selector it returns, `none` for nil. -/
def getCloseSelectorExpr (ctx : CheckerContext) (x : Expr) : Option (Expr × Ident) :=
  match x with
  | .call (.selector recv sel) _ _ =>
    if ctx.qualifiedName (.ident sel) = "Close" then some (recv, sel) else none
  | _ => none

/-- The method `sqlRowsCloseChecker.typeString`. -/
def typeString (ctx : CheckerContext) (x : Expr) : String :=
  match ctx.typeOf x with
  | some typ => TypeString typ
  | none => ""

/-- The method `sqlRowsCloseChecker.varInList`. -/
def varInList (v : Option Object) (list : List (Option Object)) : Bool :=
  list.any (fun r => decide (v = r))

/-- The loops over `b.Lhs` and over `b.Results`: the declaration of every
operand with the rows type is appended. -/
def appendRows (ctx : CheckerContext) (acc : List (Option Object)) (xs : List Expr) :
    List (Option Object) :=
  xs.foldl (fun acc x => if typeString ctx x = rowsTypePTR then acc ++ [getType ctx x] else acc) acc

/-- The loop over the body of a deferred function literal. -/
def appendClosed (ctx : CheckerContext) (acc : List (Option Object)) (list : List Stmt) :
    List (Option Object) :=
  list.foldl (fun acc s =>
    match s with
    | .exprStmt x =>
      match getCloseSelectorExpr ctx x with
      | some ss => acc ++ [getType ctx ss.1]
      | none => acc
    | _ => acc) acc

/-- The body of the loop `for _, b := range decl.Body.List`, one case per arm
of the type switch. -/
def scanStmt (ctx : CheckerContext) (vars : Vars) (b : Stmt) : Vars :=
  match b with
  | .assign lhs _ => ⟨appendRows ctx vars.localVars lhs, vars.returnVars, vars.closeVars⟩
  | .ret results => ⟨vars.localVars, appendRows ctx vars.returnVars results, vars.closeVars⟩
  | .exprStmt x =>
    match getCloseSelectorExpr ctx x with
    | some sel => ⟨vars.localVars, vars.returnVars, vars.closeVars ++ [getType ctx sel.1]⟩
    | none => vars
  | .deferStmt fn _ _ =>
    match fn with
    | .selector x sel =>
      if ctx.qualifiedName (.ident sel) = "Close" then
        ⟨vars.localVars, vars.returnVars, vars.closeVars ++ [getType ctx x]⟩
      else vars
    | .funcLit _ list => ⟨vars.localVars, vars.returnVars, appendClosed ctx vars.closeVars list⟩
    | _ => vars
  | _ => vars

/-- The warning of the last loop of `VisitFuncDecl` for the declaration `l`. -/
def warnLocal (ctx : CheckerContext) (l : Object) : Warning :=
  ⟨.scope (ctx.objParent l), "local variable db.Rows have not Close call", []⟩

/-- The loop `for _, l := range localVars`; calling `l.Parent()` on a nil
object panics. -/
def checkLocals (ctx : CheckerContext) (returnVars closeVars : List (Option Object)) :
    List (Option Object) → List Warning → Outcome
  | [], ws => .done ws
  | l :: ls, ws =>
    if !varInList l returnVars && !varInList l closeVars then
      match l with
      | none => .panic ws
      | some obj => checkLocals ctx returnVars closeVars ls (ws ++ [warnLocal ctx obj])
    else checkLocals ctx returnVars closeVars ls ws

/-- The lists after the scan of the whole body. -/
def scanBody (ctx : CheckerContext) (body : List Stmt) : Vars :=
  body.foldl (scanStmt ctx) ⟨[], [], []⟩

/-- The method `sqlRowsCloseChecker.VisitFuncDecl`; reading `decl.Body.List`
of a declaration without body panics. -/
def VisitFuncDecl (ctx : CheckerContext) (decl : FuncDecl) : Outcome :=
  match decl.body with
  | none => .panic []
  | some body =>
    checkLocals ctx (scanBody ctx body).returnVars (scanBody ctx body).closeVars
      (scanBody ctx body).localVars []

end sqlRowsCloseChecker

/-! ## Vocabulary of the statements -/

/-- The parameter fields of a declaration (none when the list is nil). -/
def paramFields (decl : FuncDecl) : List Field :=
  match decl.type.params with
  | none => []
  | some params => params.list

/-- The parameter identifiers of a declaration, in source order. -/
def paramIdents (decl : FuncDecl) : List Ident :=
  (paramFields decl).flatMap (fun p => p.names)

/-- The parameter is not named blank and no key of the map `Uses` carries its
parser object in the field `Obj`: the test the checker makes. -/
def isUnusedParam (ctx : CheckerContext) (p : Ident) : Bool :=
  decide (p.name ≠ "_") && ctx.uses.all (fun u => decide (u.obj ≠ p.obj))

/-- The parameter is not named blank and the usage index resolves no
occurrence to its declaration: `Uses` maps no key to the object the parameter
identifier stands for. -/
def isUnresolvedParam (ctx : CheckerContext) (p : Ident) : Bool :=
  decide (p.name ≠ "_") &&
    ctx.uses.all (fun u => decide (ctx.objectOf u ≠ ctx.objectOf p))

mutual
/-- The nodes of an expression in the order `ast.Walk` reaches them. -/
def exprNodes : Expr → List Node
  | .ident id => [.expr (.ident id)]
  | .selector x sel => .expr (.selector x sel) :: (exprNodes x ++ [.expr (.ident sel)])
  | .index x i => .expr (.index x i) :: (exprNodes x ++ exprNodes i)
  | .call fn args ell => .expr (.call fn args ell) :: (exprNodes fn ++ exprsNodes args)
  | .funcLit t b => .expr (.funcLit t b) :: (exprNodes t ++ .stmt (.block b) :: stmtsNodes b)
  | .other k cs => .expr (.other k cs) :: nodesNodes cs
/-- The nodes of a statement in the order `ast.Walk` reaches them. -/
def stmtNodes : Stmt → List Node
  | .assign l r => .stmt (.assign l r) :: (exprsNodes l ++ exprsNodes r)
  | .ret rs => .stmt (.ret rs) :: exprsNodes rs
  | .exprStmt x => .stmt (.exprStmt x) :: exprNodes x
  | .deferStmt fn args ell =>
    .stmt (.deferStmt fn args ell) :: .expr (.call fn args ell) :: (exprNodes fn ++ exprsNodes args)
  | .range k v x b =>
    .stmt (.range k v x b) ::
      (optNodes k ++ (optNodes v ++ (exprNodes x ++ .stmt (.block b) :: stmtsNodes b)))
  | .block l => .stmt (.block l) :: stmtsNodes l
  | .other k cs => .stmt (.other k cs) :: nodesNodes cs
/-- The nodes of an optional child. -/
def optNodes : Option Expr → List Node
  | none => []
  | some e => exprNodes e
/-- The nodes of an expression list. -/
def exprsNodes : List Expr → List Node
  | [] => []
  | e :: es => exprNodes e ++ exprsNodes es
/-- The nodes of a statement list. -/
def stmtsNodes : List Stmt → List Node
  | [] => []
  | s :: ss => stmtNodes s ++ stmtsNodes ss
/-- The nodes of a list of children. -/
def nodesNodes : List Node → List Node
  | [] => []
  | .expr e :: ns => exprNodes e ++ nodesNodes ns
  | .stmt s :: ns => stmtNodes s ++ nodesNodes ns
end

/-- The nodes of a block with statement list `l`, the block itself first. -/
def blockNodes (l : List Stmt) : List Node := .stmt (.block l) :: stmtsNodes l

namespace boolFuncPrefixChecker

/-- The declaration has no parameter and exactly one result, and the type of
that result is the basic type `bool`. -/
def isNullaryBool (ctx : CheckerContext) (decl : FuncDecl) : Prop :=
  NumFields decl.type.params = 0 ∧ NumFields decl.type.results = 1 ∧
  ∃ results first rest, decl.type.results = some results ∧ results.list = first :: rest ∧
    ctx.typeOf first.type = some (.basic .Bool)

/-- The declaration is a nullary function with a single `bool` result whose
name has no accepted prefix. -/
def isFlagged (ctx : CheckerContext) (decl : FuncDecl) : Prop :=
  isNullaryBool ctx decl ∧ hasProperPrefix ctx decl.name.name = false

/-- The eight accepted prefixes. -/
def acceptedPrefixes : List String :=
  ["is", "has", "contains", "check", "get", "should", "need", "may"]

end boolFuncPrefixChecker

namespace importPackageNameChecker

/-- The clause has an alias, its path is the path of an imported package, and
the alias is the name of that package. -/
def hasRedundantAlias (ctx : CheckerContext) (imp : ImportSpec) : Bool :=
  match imp.name with
  | none => false
  | some name =>
    ctx.pkgImports.any (fun pkg => decide (pkg.path = Trim imp.pathValue "\"") && decide (name.name = pkg.name))

end importPackageNameChecker

namespace indexOnlyLoopChecker

/-- The node is an index expression `sequence[key]`: its index has the shape
of the loop key and its operand resolves to the iterated declaration. -/
def isRederivation (ctx : CheckerContext) (key : Expr) (iterated : Object) : Node → Bool
  | .expr (.index x index) =>
    astequalExpr index key && decide (some iterated = objectOfIdentOf ctx x)
  | _ => false

/-- The node is an index expression whose index is an identifier with the
given name and whose operand resolves to the iterated declaration; what the
index identifier resolves to plays no part. -/
def isNamedIndex (ctx : CheckerContext) (name : String) (iterated : Object) : Node → Bool
  | .expr (.index x (.ident i)) =>
    decide (i.name = name) && decide (some iterated = objectOfIdentOf ctx x)
  | _ => false

/-- The number of index expressions `sequence[key]` among the nodes of the
loop body. -/
def rederivations (ctx : CheckerContext) (key : Expr) (iterated : Object)
    (body : List Stmt) : Nat :=
  (blockNodes body).countP (isRederivation ctx key iterated)

/-- The type is a slice or an array whose element type is a pointer. -/
def IsSeqOfPointers (t : GoType) : Prop :=
  (∃ elem, t = .slice (.pointer elem)) ∨ (∃ n elem, t = .array n (.pointer elem))

/-- The counter `g` adds at most `t`, and adds exactly `t` as long as the
result stays below two. -/
def Tracks (g : Nat → Nat) (t : Nat) : Prop :=
  ∀ c, c ≤ g c ∧ g c ≤ c + t ∧ (g c < 2 → g c = c + t)

end indexOnlyLoopChecker

namespace sqlRowsCloseChecker

/-- The declaration `d` is returned or closed at the top level of `body`:
(a) it is an operand with the rows type of a `return`, (b) the receiver of a
call of `Close` that is an expression statement, (c) the receiver of `Close`
in `defer x.Close()`, or (d) the receiver of a call of `Close` that is a
statement of the body of a deferred function literal. -/
def Handled (ctx : CheckerContext) (body : List Stmt) (d : Object) : Prop :=
  (∃ results r, Stmt.ret results ∈ body ∧ r ∈ results ∧
    typeString ctx r = rowsTypePTR ∧ getType ctx r = some d) ∨
  (∃ recv sel args ell, Stmt.exprStmt (.call (.selector recv sel) args ell) ∈ body ∧
    sel.name = "Close" ∧ getType ctx recv = some d) ∨
  (∃ recv sel args ell, Stmt.deferStmt (.selector recv sel) args ell ∈ body ∧
    sel.name = "Close" ∧ getType ctx recv = some d) ∨
  (∃ typ list dargs dell recv sel args ell,
    Stmt.deferStmt (.funcLit typ list) dargs dell ∈ body ∧
    Stmt.exprStmt (.call (.selector recv sel) args ell) ∈ list ∧
    sel.name = "Close" ∧ getType ctx recv = some d)

/-- The declarations the last loop of `VisitFuncDecl` warns about, in order,
up to the point where the loop panics, if it does. -/
def warnedLocals (returnVars closeVars : List (Option Object)) :
    List (Option Object) → List Object
  | [] => []
  | l :: ls =>
    if !varInList l returnVars && !varInList l closeVars then
      match l with
      | none => []
      | some obj => obj :: warnedLocals returnVars closeVars ls
    else warnedLocals returnVars closeVars ls

/-- The declarations `VisitFuncDecl` warns about. -/
def warnedVars (ctx : CheckerContext) (decl : FuncDecl) : List Object :=
  match decl.body with
  | none => []
  | some body =>
    warnedLocals (scanBody ctx body).returnVars (scanBody ctx body).closeVars
      (scanBody ctx body).localVars

end sqlRowsCloseChecker

/-! ## Sample inputs -/

namespace samples

/-- An implementation of the helper `identOf` for the sample inputs: an
identifier denotes itself, a selector its `Sel`, an index expression its
operand. -/
def identOf : Expr → Option Ident
  | .ident id => some id
  | .selector _ sel => some sel
  | .index x _ => identOf x
  | _ => none

/-- An implementation of the helper `qualifiedName` for the sample inputs. -/
def qualifiedName : Expr → String
  | .ident id => id.name
  | .selector (.ident pkg) sel => pkg.name ++ "." ++ sel.name
  | _ => ""

/-- The type `*database/sql.Rows`. -/
def rowsPtr : GoType := .pointer (.named (some "database/sql") "Rows")

/-- Declarations of the samples: 1 is `xs []*T`, 2 the loop key `i`, 3 a
variable `i` declared inside a loop body, 4 is `rows *sql.Rows`, 5 is
`vals []T`. -/
def objectOf (id : Ident) : Option Object :=
  if id.name = "xs" then some 1
  else if id.name = "i" then (if id.pos < 10 then some 2 else some 3)
  else if id.name = "rows" then some 4
  else if id.name = "vals" then some 5
  else none

/-- The types of the expressions of the samples. -/
def typeOf : Expr → Option GoType
  | .ident id =>
    if id.name = "rows" then some rowsPtr
    else if id.name = "bool" then some (.basic .Bool)
    else none
  | _ => none

/-- The names of the declarations of the samples. -/
def objName (o : Object) : String :=
  if o = 1 then "xs" else if o = 4 then "rows" else if o = 5 then "vals" else "i"

/-- The types of the declarations of the samples. -/
def objType (o : Object) : GoType :=
  if o = 1 then .slice (.pointer (.named (some "main") "T"))
  else if o = 4 then rowsPtr
  else if o = 5 then .slice (.named (some "main") "T")
  else .basic .Int

/-- The context of the samples: the usage index holds one occurrence of the
parameter `a`, and two packages are imported. -/
def ctx : CheckerContext :=
  CheckerContext.mk
    [⟨"a", 20, some 1⟩]
    objectOf
    typeOf
    objName
    objType
    (fun _ => some 0)
    [⟨"github.com/go-critic/go-critic/lint", "lint"⟩, ⟨"fmt", "fmt"⟩]
    identOf
    qualifiedName
    (fun c => c)

/-- The identifier `name` at position `pos`, without parser object. -/
def id (name : String) (pos : Nat) : Ident := ⟨name, pos, none⟩

/-- The parameter `b` of `unusedDecl`. -/
def paramB : Ident := ⟨"b", 2, some 2⟩

/-- The declaration `func f(a int, b float64) {}`; only `a` is used. -/
def unusedDecl : FuncDecl :=
  ⟨id "f" 0,
    ⟨some ⟨[⟨[⟨"a", 1, some 1⟩], .ident (id "int" 3)⟩, ⟨[paramB], .ident (id "float64" 4)⟩]⟩,
      none⟩,
    some []⟩

/-- The first parameter field of `unnamedDecl`. -/
def unnamedField : Field := ⟨[], .ident (id "int" 1)⟩

/-- The declaration `func g(int, string) {}`. -/
def unnamedDecl : FuncDecl :=
  ⟨id "g" 0, ⟨some ⟨[unnamedField, ⟨[], .ident (id "string" 2)⟩]⟩, none⟩, some []⟩

/-- The declaration `func Enabled() bool`, with or without another name. -/
def boolDecl (name : String) : FuncDecl :=
  ⟨id name 0, ⟨some ⟨[]⟩, some ⟨[⟨[], .ident (id "bool" 1)⟩]⟩⟩, some []⟩

/-- The clause `import lint "github.com/go-critic/go-critic/lint"`. -/
def lintImport : ImportSpec := ⟨some (id "lint" 1), "\"github.com/go-critic/go-critic/lint\"", 1⟩

/-- The clause `import x "unknown/pkg"`, which no imported package matches. -/
def unknownImport : ImportSpec := ⟨some (id "x" 2), "\"unknown/pkg\"", 2⟩

/-- The statement `seq[i].method()` with the identifiers at the given positions. -/
def callOnElem (seq : String) (method : String) (pos : Nat) : Stmt :=
  .exprStmt (.call (.selector (.index (.ident (id seq pos)) (.ident (id "i" (pos + 1))))
    (id method (pos + 2))) [] false)

/-- The loop `for i := range xs { xs[i].Foo(); xs[i].Bar() }` over `xs []*T`. -/
def twiceLoop : Stmt :=
  .range (some (.ident (id "i" 2))) none (.ident (id "xs" 3))
    [callOnElem "xs" "Foo" 4, callOnElem "xs" "Bar" 7]

/-- The loop `for i := range vals { vals[i].Foo(); vals[i].Bar() }` over
`vals []T`. -/
def valueLoop : Stmt :=
  .range (some (.ident (id "i" 2))) none (.ident (id "vals" 3))
    [callOnElem "vals" "Foo" 4, callOnElem "vals" "Bar" 7]

/-- The loop `for i := range xs { i := 0; xs[i].Foo(); xs[i].Bar() }`: the
two `i` in the index expressions (positions 14 and 17) resolve to the variable
declared in the body, declaration 3, not to the loop key, declaration 2. -/
def shadowLoop : Stmt :=
  .range (some (.ident (id "i" 2))) none (.ident (id "xs" 3))
    [.assign [.ident (id "i" 10)] [.other 0 []], callOnElem "xs" "Foo" 13,
      callOnElem "xs" "Bar" 16]

/-- The body `rows, _ := db.Query(); defer rows.Close()`. -/
def closedBody : List Stmt :=
  [.assign [.ident (id "rows" 1), .ident (id "_" 2)]
      [.call (.selector (.ident (id "db" 3)) (id "Query" 4)) [] false],
    .deferStmt (.selector (.ident (id "rows" 5)) (id "Close" 6)) [] false]

/-- A function with body `closedBody`. -/
def closedDecl : FuncDecl := ⟨id "load" 0, ⟨some ⟨[]⟩, none⟩, some closedBody⟩

end samples

/-! ## Further vocabulary and sample inputs -/

namespace sqlRowsCloseChecker

/-- The targets with the rows type of the top-level assignments of a body, in
source order, one entry per occurrence. -/
def cursorTargets (ctx : CheckerContext) (body : List Stmt) : List Expr :=
  body.flatMap (fun b =>
    match b with
    | .assign lhs _ => lhs.filter (fun l => decide (typeString ctx l = rowsTypePTR))
    | _ => [])

/-- The object is neither among the returned nor among the closed ones of the
body. -/
def isUnhandled (ctx : CheckerContext) (body : List Stmt) (l : Option Object) : Bool :=
  !varInList l (scanBody ctx body).returnVars && !varInList l (scanBody ctx body).closeVars

/-- The statement is none of the four kinds the scan looks at: it is not an
assignment, a return, an expression statement or a defer. -/
def isUnclassified : Stmt → Bool
  | .assign _ _ => false
  | .ret _ => false
  | .exprStmt _ => false
  | .deferStmt _ _ _ => false
  | _ => true

/-- What the scan of one statement adds to the three lists. -/
def stmtVars (ctx : CheckerContext) (b : Stmt) : Vars :=
  scanStmt ctx ⟨[], [], []⟩ b

end sqlRowsCloseChecker

namespace indexOnlyLoopChecker

/-- The callback of a full traversal, as the specification words it: every
index expression `sequence[key]` is counted and the traversal never stops. -/
def countIndexFull (ctx : CheckerContext) (key : Expr) (iterated : Object) (n : Node)
    (count : Nat) : Nat × Bool :=
  match n with
  | .expr (.index x index) =>
    if astequalExpr index key && decide (some iterated = objectOfIdentOf ctx x) then
      (count + 1, true)
    else (count, true)
  | _ => (count, true)

end indexOnlyLoopChecker

namespace blankParamChecker

/-- The context with another usage index, or with the same occurrences
enumerated in another order. -/
def withUses (ctx : CheckerContext) (uses : List Ident) : CheckerContext :=
  CheckerContext.mk uses ctx.objectOf ctx.typeOf ctx.objName ctx.objType ctx.objParent
    ctx.pkgImports ctx.identOf ctx.qualifiedName ctx.unicodeToLower

/-- The scan of the usage index carried to its end: as `removeUsed`, without
the return taken when the map becomes empty. -/
def removeUsedFull : List Ident → GoMap (Option AstObject) Ident →
    GoMap (Option AstObject) Ident
  | [], objToIdent => objToIdent
  | id :: ids, objToIdent =>
    if GoMap.has objToIdent id.obj then removeUsedFull ids (GoMap.delete objToIdent id.obj)
    else removeUsedFull ids objToIdent

end blankParamChecker

namespace samples

/-- The parameter `c` of `twoUnusedDecl`. -/
def paramC : Ident := ⟨"c", 3, some 3⟩

/-- The declaration `func h(b float64, c string) {}`; neither parameter is
used. -/
def twoUnusedDecl : FuncDecl :=
  ⟨id "h" 0,
    ⟨some ⟨[⟨[paramB], .ident (id "float64" 4)⟩, ⟨[paramC], .ident (id "string" 5)⟩]⟩, none⟩,
    some []⟩

/-- The declaration `func pair() (a, b bool)`: one result field, two names. -/
def twoNamesDecl : FuncDecl :=
  ⟨id "pair" 0,
    ⟨some ⟨[]⟩, some ⟨[⟨[id "a" 1, id "b" 2], .ident (id "bool" 3)⟩]⟩⟩,
    some []⟩

end samples

namespace samples

/-- The statement `target, _ := db.Query()`. -/
def queryAssign (target : Expr) : Stmt :=
  .assign [target, .ident (id "_" 2)]
    [.call (.selector (.ident (id "db" 3)) (id "Query" 4)) [] false]

/-- A function with body `rows, _ := db.Query()`: nothing returns or closes
`rows`. -/
def unclosedDecl : FuncDecl :=
  ⟨id "load" 0, ⟨some ⟨[]⟩, none⟩, some [queryAssign (.ident (id "rows" 1))]⟩

/-- A function with body `rows, _ := db.Query(); rows, _ = db.Query()`: the one
variable `rows` is the target of two assignments. -/
def reassignedDecl : FuncDecl :=
  ⟨id "load" 0, ⟨some ⟨[]⟩, none⟩,
    some [queryAssign (.ident (id "rows" 1)), queryAssign (.ident (id "rows" 11))]⟩

/-- A function with body `rows, _ := db.Query(); process(rows)`: `rows` is
passed to another function and neither returned nor closed. -/
def passedDecl : FuncDecl :=
  ⟨id "load" 0, ⟨some ⟨[]⟩, none⟩,
    some [queryAssign (.ident (id "rows" 1)),
      .exprStmt (.call (.ident (id "process" 7)) [.ident (id "rows" 8)] false)]⟩

/-- The index expression `getCache()[0]`, an element of the slice the function
`getCache() []*sql.Rows` returns: an assignable expression whose operand is a
call, so that it holds no identifier to resolve. -/
def cacheElem : Expr :=
  .index (.call (.ident (id "getCache" 21)) [] false) (.other 0 [])

/-- The types of the expressions of the second context: `rows`, the
package-level variable `globalRows` and `getCache()[0]` have the rows type,
`getCache()` is a slice of rows, `db` is a `*sql.DB` and `db.Query()` a pair;
the blank identifier of an assignment has no type. -/
def typeOfB : Expr → Option GoType
  | .ident id =>
    if id.name = "rows" then some rowsPtr
    else if id.name = "globalRows" then some rowsPtr
    else if id.name = "getCache" then some (.other "func() []*database/sql.Rows")
    else if id.name = "db" then some (.pointer (.named (some "database/sql") "DB"))
    else none
  | .call (.ident id) _ _ => if id.name = "getCache" then some (.slice rowsPtr) else none
  | .call (.selector _ sel) _ _ =>
    if sel.name = "Query" then some (.other "(*database/sql.Rows, error)") else none
  | .index (.call (.ident id) _ _) _ =>
    if id.name = "getCache" then some rowsPtr else none
  | .other _ _ => some (.basic .Int)
  | _ => none

/-- Declarations of the second context: 4 is the local `rows`, 6 the
package-level `globalRows`, 7 the function `getCache`, 10 the variable `db`,
11 the method `Query`. -/
def objectOfB (id : Ident) : Option Object :=
  if id.name = "rows" then some 4
  else if id.name = "globalRows" then some 6
  else if id.name = "getCache" then some 7
  else if id.name = "db" then some 10
  else if id.name = "Query" then some 11
  else none

/-- The names of the declarations of the second context. -/
def objNameB (o : Object) : String :=
  if o = 4 then "rows" else if o = 6 then "globalRows" else if o = 7 then "getCache"
  else if o = 10 then "db" else "Query"

/-- The types of the declarations of the second context. -/
def objTypeB (o : Object) : GoType :=
  if o = 4 then rowsPtr
  else if o = 6 then rowsPtr
  else if o = 7 then .other "func() []*database/sql.Rows"
  else if o = 10 then .pointer (.named (some "database/sql") "DB")
  else .other "func(query string, args ...any) (*database/sql.Rows, error)"

/-- The scope a declaration of the second context belongs to: scope 0 is the
scope of the function, scope 1 the scope of the package; a method has none. -/
def objParentB (o : Object) : Option Scope :=
  if o = 4 then some 0 else if o = 11 then none else some 1

/-- A second context: like `ctx`, with the same helpers, a package-level
variable and a function that returns a slice of rows. -/
def ctxB : CheckerContext :=
  CheckerContext.mk
    []
    objectOfB
    typeOfB
    objNameB
    objTypeB
    objParentB
    []
    identOf
    qualifiedName
    (fun c => c)

/-- A function with body `globalRows, _ = db.Query()`, where `globalRows` is a
variable of the package. -/
def globalDecl : FuncDecl :=
  ⟨id "load" 0, ⟨some ⟨[]⟩, none⟩, some [queryAssign (.ident (id "globalRows" 1))]⟩

/-- The body `getCache()[0], _ = db.Query(); rows, _ := db.Query()`. -/
def elemFirstBody : List Stmt :=
  [queryAssign cacheElem, queryAssign (.ident (id "rows" 1))]

/-- The same two statements in the other order. -/
def rowsFirstBody : List Stmt :=
  [queryAssign (.ident (id "rows" 1)), queryAssign cacheElem]

/-- The function `load` with the given body. -/
def loadDecl (body : List Stmt) : FuncDecl := ⟨id "load" 0, ⟨some ⟨[]⟩, none⟩, some body⟩

/-- The parameter `a` of `fieldKeyDecl`; its parser object is object 1. -/
def paramA : Ident := ⟨"a", 1, some 1⟩

/-- The key `a` of the composite literal `T{a: 1}`. The parser, which does not
know the type of the literal, resolved it to the parameter of the same name,
so its field `Obj` is object 1. -/
def keyA : Ident := ⟨"a", 30, some 1⟩

/-- An occurrence of the type name `T`, with parser object 5. -/
def nameT (pos : Nat) : Ident := ⟨"T", pos, some 5⟩

/-- The declaration `func f(a int) T { return T{a: 1} }`, in a file that has
`type T struct{ a int }`: the parameter `a` is used nowhere. -/
def fieldKeyDecl : FuncDecl :=
  ⟨id "f" 0,
    ⟨some ⟨[⟨[paramA], .ident (id "int" 2)⟩]⟩, some ⟨[⟨[], .ident (nameT 3)⟩]⟩⟩,
    some [.ret [.other 2 [.expr (.ident (nameT 29)),
      .expr (.other 3 [.expr (.ident keyA), .expr (.other 0 [])])]]]⟩

/-- What the type checker resolves the identifiers of `fieldKeyDecl` to: the
parameter `a` at position 1 is the variable 8, the key `a` of the literal is
the field 7 of `T`, the name `T` is the type 9. -/
def objectOfKey (id : Ident) : Option Object :=
  if id.name = "a" then (if id.pos = 1 then some 8 else some 7)
  else if id.name = "T" then some 9
  else none

/-- A third context: the usage index of `fieldKeyDecl`, whose keys are `int`,
the two `T` and the key `a` of the literal. -/
def ctxKey : CheckerContext :=
  CheckerContext.mk
    [id "int" 2, nameT 3, nameT 29, keyA]
    objectOfKey
    typeOf
    objName
    objType
    (fun _ => some 0)
    []
    identOf
    qualifiedName
    (fun c => c)

end samples

/-! ## Lemmas on the Go runtime model -/

theorem GoMap.range_perm {κ ν : Type} (seed : Nat) (m : GoMap κ ν) :
    (GoMap.range seed m).Perm m := by
  unfold GoMap.range
  rw [List.getD_eq_getElem?_getD]
  cases h : m.permutations[seed % m.permutations.length]? with
  | none => simp
  | some l =>
    have hmem : l ∈ m.permutations := List.getElem?_mem h
    simpa using List.mem_permutations.1 hmem

theorem GoMap.delete_of_not_mem {κ ν : Type} [DecidableEq κ] (m : GoMap κ ν) (k : κ)
    (h : k ∉ m.map Prod.fst) : GoMap.delete m k = m := by
  unfold GoMap.delete
  apply List.filter_eq_self.2
  intro e he
  have : e.1 ≠ k := fun hk => h (hk ▸ List.mem_map_of_mem Prod.fst he)
  simpa using this

theorem numFields_foldl_ge (fields : List Field) (n : Nat) :
    n + fields.length ≤ fields.foldl
      (fun n g => n + (if g.names.length = 0 then 1 else g.names.length)) n := by
  induction fields generalizing n with
  | nil => simp
  | cons g gs ih =>
    simp only [List.foldl_cons, List.length_cons]
    have := ih (n + (if g.names.length = 0 then 1 else g.names.length))
    by_cases hg : g.names.length = 0
    · simp only [hg, if_true] at this ⊢; omega
    · simp only [hg, if_false] at this ⊢; omega

theorem list_eq_nil_of_numFields (params : FieldList) (h : NumFields (some params) = 0) :
    params.list = [] := by
  have := numFields_foldl_ge params.list 0
  simp only [NumFields] at h
  rw [h] at this
  exact List.length_eq_zero.1 (by omega)

/-! ## blankParam -/

namespace blankParamChecker

theorem collectParams_named (fields : List Field) (m : GoMap (Option AstObject) Ident)
    (h : ∀ f ∈ fields, f.names ≠ []) :
    collectParams fields m = .ok (addNames m (fields.flatMap (fun p => p.names))) := by
  induction fields generalizing m with
  | nil => simp [collectParams, addNames]
  | cons p ps ih =>
    have hp : p.names ≠ [] := h p (List.mem_cons_self _ _)
    have hlen : ¬ p.names.length = 0 := by simpa using hp
    rw [collectParams, if_neg hlen, ih _ (fun f hf => h f (List.mem_cons_of_mem _ hf))]
    simp [addNames, List.flatMap_cons, List.foldl_append]

theorem addNames_distinct (ids : List Ident) (m : GoMap (Option AstObject) Ident)
    (hnd : ((ids.filter (fun p => decide (p.name ≠ "_"))).map (fun p => p.obj)).Nodup)
    (hm : ∀ p ∈ ids.filter (fun p => decide (p.name ≠ "_")), p.obj ∉ m.map Prod.fst) :
    addNames m ids = m ++ (ids.filter (fun p => decide (p.name ≠ "_"))).map (fun p => (p.obj, p)) := by
  induction ids generalizing m with
  | nil => simp [addNames]
  | cons id ids ih =>
    by_cases hb : id.name = "_"
    · have : addNames m (id :: ids) = addNames m ids := by simp [addNames, hb]
      rw [this]
      simp only [hb, ne_eq, not_true_eq_false, decide_False, Bool.false_eq_true,
        not_false_eq_true, List.filter_cons_of_neg] at hnd hm ⊢
      exact ih m hnd hm
    · have hstep : addNames m (id :: ids) = addNames (GoMap.set m id.obj id) ids := by
        simp [addNames, hb]
      have hf : (id :: ids).filter (fun p => decide (p.name ≠ "_"))
          = id :: ids.filter (fun p => decide (p.name ≠ "_")) := by
        simp [hb]
      rw [hf] at hnd hm
      rw [hstep, hf]
      have hnot : id.obj ∉ m.map Prod.fst := hm id (List.mem_cons_self _ _)
      have hset : GoMap.set m id.obj id = m ++ [(id.obj, id)] := by
        unfold GoMap.set; rw [GoMap.delete_of_not_mem m _ hnot]
      rw [hset]
      simp only [List.map_cons, List.nodup_cons] at hnd
      rw [ih _ hnd.2]
      · simp
      · intro p hp
        simp only [List.map_append, List.map_cons, List.map_nil, List.mem_append,
          List.mem_singleton, not_or]
        refine ⟨hm p (List.mem_cons_of_mem _ hp), ?_⟩
        intro heq
        exact hnd.1 (heq ▸ List.mem_map_of_mem (fun p => p.obj) hp)

theorem removeUsed_spec (uses : List Ident) (m : GoMap (Option AstObject) Ident) :
    (removeUsed uses m).getD [] = m.filter (fun e => uses.all (fun u => decide (u.obj ≠ e.1))) := by
  induction uses generalizing m with
  | nil => simp [removeUsed]
  | cons id ids ih =>
    have hfilter : m.filter (fun e => (id :: ids).all (fun u => decide (u.obj ≠ e.1)))
        = (GoMap.delete m id.obj).filter (fun e => ids.all (fun u => decide (u.obj ≠ e.1))) := by
      unfold GoMap.delete
      rw [List.filter_filter]
      apply List.filter_congr
      intro e _
      simp only [List.all_cons, ne_eq, decide_not, Bool.and_comm]
      by_cases h : e.1 = id.obj <;> simp [h, eq_comm]
    rw [hfilter, removeUsed]
    by_cases hhas : GoMap.has m id.obj = true
    · rw [if_pos hhas]
      by_cases hlen : (GoMap.delete m id.obj).length = 0
      · rw [if_pos hlen]
        have : GoMap.delete m id.obj = [] := List.length_eq_zero.1 hlen
        simp [this]
      · rw [if_neg hlen]; exact ih _
    · rw [if_neg hhas]
      have hnot : id.obj ∉ m.map Prod.fst := by
        intro hmem
        apply hhas
        obtain ⟨e, he, hk⟩ := List.mem_map.1 hmem
        simp only [GoMap.has, List.any_eq_true, decide_eq_true_eq]
        exact ⟨e, he, hk⟩
      rw [GoMap.delete_of_not_mem m _ hnot]; exact ih _

theorem collectParams_unnamed (fields : List Field) (m : GoMap (Option AstObject) Ident)
    (h : ∃ f ∈ fields, f.names = []) :
    ∃ f ∈ fields, f.names = [] ∧ collectParams fields m = .error f := by
  induction fields generalizing m with
  | nil => simp at h
  | cons p ps ih =>
    by_cases hp : p.names = []
    · exact ⟨p, List.mem_cons_self _ _, hp, by simp [collectParams, hp]⟩
    · have hrest : ∃ f ∈ ps, f.names = [] := by
        obtain ⟨f, hf, hn⟩ := h
        rcases List.mem_cons.1 hf with rfl | hf
        · exact absurd hn hp
        · exact ⟨f, hf, hn⟩
      obtain ⟨f, hf, hn, hc⟩ := ih (addNames m p.names) hrest
      refine ⟨f, List.mem_cons_of_mem _ hf, hn, ?_⟩
      have hlen : ¬ p.names.length = 0 := by simpa using hp
      rw [collectParams, if_neg hlen, hc]

/-- What the code reports, in terms of the parser objects it reads: on a
declaration with a body all of whose parameter fields are named, each
parameter identifier having its own parser object, the warnings of
`VisitFuncDecl` are, up to the order in which the map is ranged over, exactly
one "rename `p` to `_`" warning for each parameter identifier `p` that is not
named `_` and whose parser object is the field `Obj` of no key of `Uses`. -/
theorem reports_exactly_unused_params (ctx : CheckerContext) (seed : Nat)
    (decl : FuncDecl) (body : List Stmt)
    (hbody : decl.body = some body)
    (hnamed : ∀ f ∈ paramFields decl, f.names ≠ [])
    (hown : (((paramIdents decl).filter (fun p => decide (p.name ≠ "_"))).map
      (fun p => p.obj)).Nodup) :
    (VisitFuncDecl ctx seed decl).Perm
      (((paramIdents decl).filter (isUnusedParam ctx)).map
        (fun p => ⟨.ident p, "rename `%s` to `_`", [.node (.expr (.ident p))]⟩)) := by
  show (VisitFuncDecl ctx seed decl).Perm (((paramIdents decl).filter (isUnusedParam ctx)).map warn)
  unfold VisitFuncDecl
  rw [hbody]
  cases hparams : decl.type.params with
  | none => simp [paramIdents, paramFields, hparams]
  | some params =>
    have hfields : paramFields decl = params.list := by simp [paramFields, hparams]
    simp only
    by_cases hnum : NumFields (some params) = 0
    · rw [if_pos hnum]
      simp [paramIdents, hfields, list_eq_nil_of_numFields params hnum]
    · rw [if_neg hnum, collectParams_named params.list [] (hfields ▸ hnamed)]
      have hids : params.list.flatMap (fun p => p.names) = paramIdents decl := by
        simp [paramIdents, hfields]
      rw [hids, addNames_distinct (paramIdents decl) [] hown (by simp)]
      simp only [List.nil_append]
      have hspec := removeUsed_spec ctx.uses
        (((paramIdents decl).filter (fun p => decide (p.name ≠ "_"))).map (fun p => (p.obj, p)))
      have hleft : ((((paramIdents decl).filter (fun p => decide (p.name ≠ "_"))).map
          (fun p => (p.obj, p))).filter
            (fun e => ctx.uses.all (fun u => decide (u.obj ≠ e.1)))).map (fun e => warn e.2)
          = ((paramIdents decl).filter (isUnusedParam ctx)).map warn := by
        rw [List.filter_map, List.filter_filter, List.map_map]
        have hpred : ∀ a : Ident,
            (((fun e : Option AstObject × Ident =>
                ctx.uses.all (fun u => decide (u.obj ≠ e.1))) ∘ fun p => (p.obj, p)) a
              && decide (a.name ≠ "_")) = isUnusedParam ctx a := by
          intro a
          simp only [isUnusedParam, Function.comp]
          exact Bool.and_comm _ _
        rw [List.filter_congr (fun a _ => hpred a)]
        rfl
      rw [← hleft, ← hspec]
      cases hrem : removeUsed ctx.uses
          (((paramIdents decl).filter (fun p => decide (p.name ≠ "_"))).map
            (fun p => (p.obj, p))) with
      | none => simp
      | some left =>
        simp only [Option.getD_some]
        exact (GoMap.range_perm seed left).map _

/-- An instance of the lemma above: in `func f(a int, b float64) {}` with `a`
used, the only warning is the one for `b`. -/
theorem reports_exactly_unused_params_witness :
    (VisitFuncDecl samples.ctx 0 samples.unusedDecl).Perm [warn samples.paramB] :=
  reports_exactly_unused_params samples.ctx 0 samples.unusedDecl [] rfl (by decide) (by decide)

/-- C1, the code at the failing input: in
`func f(a int) T { return T{a: 1} }` the usage index resolves no occurrence to
the parameter `a` (the key `a` of the literal resolves to the field of `T`),
so the parameter is unused; but the key carries the parser object of the
parameter in its field `Obj`, the scan takes it for a use, and the visit
reports nothing, whatever the order of the map range. -/
theorem field_key_counts_as_use :
    isUnresolvedParam samples.ctxKey samples.paramA = true ∧
    samples.ctxKey.objectOf samples.keyA ≠ samples.ctxKey.objectOf samples.paramA ∧
    samples.keyA.obj = samples.paramA.obj ∧
    ∀ seed : Nat, VisitFuncDecl samples.ctxKey seed samples.fieldKeyDecl = [] :=
  ⟨by decide, by decide, rfl, fun _ => rfl⟩

/-- C2: on a declaration with a body whose parameter list has a field without
names, `VisitFuncDecl` reports exactly one warning, "consider to name
parameters as `_`", anchored at such a field, and no "rename" warning,
whatever the other parameters and the usage index are. -/
theorem unnamed_param_single_warning (ctx : CheckerContext) (seed : Nat)
    (decl : FuncDecl) (body : List Stmt)
    (hbody : decl.body = some body)
    (hunnamed : ∃ f ∈ paramFields decl, f.names = []) :
    (∃ f ∈ paramFields decl, f.names = [] ∧
      VisitFuncDecl ctx seed decl
        = [⟨.field f, "consider to name parameters as `_`", []⟩]) ∧
    ∀ w ∈ VisitFuncDecl ctx seed decl, w.format ≠ "rename `%s` to `_`" := by
  have key : ∃ f ∈ paramFields decl, f.names = [] ∧
      VisitFuncDecl ctx seed decl
        = [⟨.field f, "consider to name parameters as `_`", []⟩] := by
    unfold VisitFuncDecl
    rw [hbody]
    cases hparams : decl.type.params with
    | none => simp [paramFields, hparams] at hunnamed
    | some params =>
      have hfields : paramFields decl = params.list := by simp [paramFields, hparams]
      rw [hfields] at hunnamed ⊢
      simp only
      have hnum : ¬ NumFields (some params) = 0 := by
        intro h0
        rw [list_eq_nil_of_numFields params h0] at hunnamed
        simp at hunnamed
      rw [if_neg hnum]
      obtain ⟨f, hf, hn, hc⟩ := collectParams_unnamed params.list [] hunnamed
      exact ⟨f, hf, hn, by rw [hc]; rfl⟩
  refine ⟨key, ?_⟩
  obtain ⟨f, _, _, hv⟩ := key
  intro w hw
  rw [hv] at hw
  simp only [List.mem_singleton] at hw
  subst hw
  show ("consider to name parameters as `_`" : String) ≠ "rename `%s` to `_`"
  decide

/-- Witness of C2: `func g(int, string) {}` gets the single warning about
unnamed parameters. -/
theorem unnamed_param_single_warning_witness :
    (∃ f ∈ paramFields samples.unnamedDecl, f.names = [] ∧
      VisitFuncDecl samples.ctx 0 samples.unnamedDecl
        = [⟨.field f, "consider to name parameters as `_`", []⟩]) ∧
    ∀ w ∈ VisitFuncDecl samples.ctx 0 samples.unnamedDecl, w.format ≠ "rename `%s` to `_`" :=
  unnamed_param_single_warning samples.ctx 0 samples.unnamedDecl [] rfl
    ⟨samples.unnamedField, List.mem_cons_self _ _, rfl⟩

end blankParamChecker

/-! ## boolFuncPrefix -/

namespace boolFuncPrefixChecker

theorem isBoolType_iff (ctx : CheckerContext) (e : Expr) :
    isBoolType ctx e = true ↔ ctx.typeOf e = some (.basic .Bool) := by
  unfold isBoolType
  split
  · rename_i kind h
    rw [h]
    simp
  · rename_i h
    constructor
    · intro hf; cases hf
    · intro ht; exact absurd ht (h BasicKind.Bool)

theorem visit_of_flagged (ctx : CheckerContext) (decl : FuncDecl) (h : isFlagged ctx decl) :
    VisitFuncDecl ctx decl = .done [warn decl] := by
  obtain ⟨⟨hp, hr, results, first, rest, hres, hlist, hty⟩, hpre⟩ := h
  unfold VisitFuncDecl
  rw [if_neg (by omega), if_neg (by simp [hr]), hres]
  simp only [hlist]
  rw [(isBoolType_iff ctx first.type).2 hty, hpre]
  rfl

theorem visit_of_not_flagged (ctx : CheckerContext) (decl : FuncDecl)
    (h : ¬ isFlagged ctx decl) : VisitFuncDecl ctx decl = .done [] := by
  unfold VisitFuncDecl
  by_cases hp : NumFields decl.type.params > 0
  · rw [if_pos hp]
  rw [if_neg hp]
  by_cases hr : NumFields decl.type.results ≠ 1
  · rw [if_pos hr]
  rw [if_neg hr]
  have hr1 : NumFields decl.type.results = 1 := by simpa using hr
  cases hres : decl.type.results with
  | none => rw [hres] at hr1; simp [NumFields] at hr1
  | some results =>
    cases hlist : results.list with
    | nil => rw [hres] at hr1; simp [NumFields, hlist] at hr1
    | cons first rest =>
      simp only [hlist]
      by_cases hb : isBoolType ctx first.type = true
      · by_cases hpre : hasProperPrefix ctx decl.name.name = true
        · rw [hb, hpre]; rfl
        · exfalso
          apply h
          exact ⟨⟨by omega, hr1, results, first, rest, hres, hlist,
            (isBoolType_iff ctx first.type).1 hb⟩, by simpa using hpre⟩
      · have hb2 : isBoolType ctx first.type = false := by simpa using hb
        rw [hb2]; rfl

theorem lower_name_criterion (ctx : CheckerContext) (name : String) :
    hasProperPrefix ctx name = true ↔
      (ToLower ctx name = "exit" ∨ ToLower ctx name = "quit" ∨
        ∃ p ∈ acceptedPrefixes, HasPrefix (ToLower ctx name) p = true) := by
  unfold hasProperPrefix acceptedPrefixes
  simp only [List.any_cons, List.any_nil, Bool.or_false, Bool.or_eq_true, decide_eq_true_eq,
    List.mem_cons, List.mem_singleton, exists_eq_or_imp, exists_eq_left, List.not_mem_nil,
    false_and, exists_false, or_false]
  constructor
  · intro h
    split at h
    · rename_i h1; rcases h1 with h1 | h1
      · exact Or.inl h1
      · exact Or.inr (Or.inl h1)
    · split at h
      · rename_i h2
        right; right
        tauto
      · cases h
  · intro h
    split
    · rfl
    · rename_i h1
      split
      · rfl
      · rename_i h2
        exfalso
        rcases h with h | h | h
        · exact h1 (Or.inl h)
        · exact h1 (Or.inr h)
        · apply h2; tauto

/-- C3: `VisitFuncDecl` reports exactly one warning, anchored at the
declaration, when the declaration has no parameter, exactly one result, that
result has the basic type `bool` and `hasProperPrefix` rejects the name; in
every other case it reports nothing, and it never panics. A nullary function
with a single `bool` result named `Enabled` is warned about, one named
`IsEnabled`, `HasFoo`, `exit` or `quit` is not, and a function with one or more
parameters is not. -/
theorem warns_iff_flagged (ctx : CheckerContext) (decl : FuncDecl) :
    (isFlagged ctx decl →
      VisitFuncDecl ctx decl
        = .done [⟨.funcDecl decl, "consider to add Is/Has/Contains prefix to function name", []⟩]) ∧
    (¬ isFlagged ctx decl → VisitFuncDecl ctx decl = .done []) ∧
    (isNullaryBool ctx decl → decl.name.name = "Enabled" →
      VisitFuncDecl ctx decl = .done [warn decl]) ∧
    (isNullaryBool ctx decl → decl.name.name ∈ ["IsEnabled", "HasFoo", "exit", "quit"] →
      VisitFuncDecl ctx decl = .done []) ∧
    (1 ≤ NumFields decl.type.params → VisitFuncDecl ctx decl = .done []) := by
  refine ⟨visit_of_flagged ctx decl, visit_of_not_flagged ctx decl, ?_, ?_, ?_⟩
  · intro hn hname
    apply visit_of_flagged
    refine ⟨hn, ?_⟩
    rw [hname]
    rfl
  · intro _ hname
    apply visit_of_not_flagged
    rintro ⟨_, hpre⟩
    have htrue : hasProperPrefix ctx decl.name.name = true := by
      simp only [List.mem_cons, List.mem_singleton, List.not_mem_nil, or_false] at hname
      rcases hname with h | h | h | h <;> rw [h] <;> rfl
    rw [htrue] at hpre
    cases hpre
  · intro hp
    apply visit_of_not_flagged
    rintro ⟨⟨h0, _⟩, _⟩
    omega

/-- Witness of C3: `func Enabled() bool` is warned about. -/
theorem warns_iff_flagged_witness :
    VisitFuncDecl samples.ctx (samples.boolDecl "Enabled")
      = .done [warn (samples.boolDecl "Enabled")] :=
  (warns_iff_flagged samples.ctx (samples.boolDecl "Enabled")).2.2.1
    ⟨rfl, rfl, _, _, _, rfl, rfl, rfl⟩ rfl

/-- Counterexample to C4 as stated: `Exit` is accepted, though the name is
neither `exit` nor `quit` and its lower-cased form has none of the eight
prefixes. -/
theorem exit_exempt_in_any_case :
    hasProperPrefix samples.ctx "Exit" = true ∧
    ¬ ("Exit" = "exit" ∨ "Exit" = "quit" ∨
        ∃ p ∈ acceptedPrefixes, HasPrefix (ToLower samples.ctx "Exit") p = true) := by
  refine ⟨rfl, ?_⟩
  simp only [acceptedPrefixes, List.mem_cons, List.mem_singleton, List.not_mem_nil, or_false]
  rintro (h | h | ⟨p, hp, h⟩)
  · exact absurd h (by decide)
  · exact absurd h (by decide)
  · rcases hp with rfl | rfl | rfl | rfl | rfl | rfl | rfl | rfl <;> exact absurd h (by
      show ¬ (HasPrefix (ToLower samples.ctx "Exit") _ = true)
      rw [show ToLower samples.ctx "Exit" = "exit" from rfl]; decide)

/-- C4 (amended): `hasProperPrefix name` is true exactly when the lower-cased
name is `exit` or `quit`, or the lower-cased name has one of the eight strings
is, has, contains, check, get, should, need, may as a plain string prefix; so
`Island` and `Mayor` are accepted. -/
theorem hasProperPrefix_iff (ctx : CheckerContext) (name : String) :
    (hasProperPrefix ctx name = true ↔
      (ToLower ctx name = "exit" ∨ ToLower ctx name = "quit" ∨
        ∃ p ∈ ["is", "has", "contains", "check", "get", "should", "need", "may"],
          HasPrefix (ToLower ctx name) p = true)) ∧
    hasProperPrefix ctx "Island" = true ∧ hasProperPrefix ctx "Mayor" = true :=
  ⟨lower_name_criterion ctx name, rfl, rfl⟩

end boolFuncPrefixChecker

/-! ## importPackageName -/

namespace importPackageNameChecker

theorem findPkgName_unmatched (imp : ImportSpec) (pkgs : List Package)
    (h : ∀ pkg ∈ pkgs, pkg.path ≠ Trim imp.pathValue "\"") : findPkgName imp pkgs = "" := by
  induction pkgs with
  | nil => rfl
  | cons p ps ih =>
    rw [findPkgName, if_neg (h p (List.mem_cons_self _ _))]
    exact ih (fun q hq => h q (List.mem_cons_of_mem _ hq))

theorem findPkgName_matched (imp : ImportSpec) (pkgs : List Package)
    (hpaths : ∀ p ∈ pkgs, ∀ q ∈ pkgs, p.path = q.path → p.name = q.name)
    (pkg : Package) (hmem : pkg ∈ pkgs) (hpath : pkg.path = Trim imp.pathValue "\"") :
    findPkgName imp pkgs = pkg.name := by
  induction pkgs with
  | nil => cases hmem
  | cons p ps ih =>
    rw [findPkgName]
    by_cases hp : p.path = Trim imp.pathValue "\""
    · rw [if_pos hp]
      exact hpaths p (List.mem_cons_self _ _) pkg hmem (hp.trans hpath.symm)
    · rw [if_neg hp]
      rcases List.mem_cons.1 hmem with rfl | hmem2
      · exact absurd hpath hp
      · exact ih (fun a ha b hb => hpaths a (List.mem_cons_of_mem _ ha) b
          (List.mem_cons_of_mem _ hb)) hmem2

theorem walkFile_foldl (ctx : CheckerContext) (imports : List ImportSpec) (ws : List Warning) :
    imports.foldl (fun ws imp => ws ++ checkImport ctx imp) ws
      = ws ++ imports.flatMap (checkImport ctx) := by
  induction imports generalizing ws with
  | nil => simp
  | cons imp rest ih => simp [List.foldl_cons, ih, List.flatMap_cons]

theorem walkFile_eq_flatMap (ctx : CheckerContext) (file : File) :
    WalkFile ctx file = file.imports.flatMap (checkImport ctx) := by
  unfold WalkFile
  rw [walkFile_foldl]
  rfl

theorem checkImport_eq (ctx : CheckerContext) (imp : ImportSpec)
    (hpaths : ∀ p ∈ ctx.pkgImports, ∀ q ∈ ctx.pkgImports, p.path = q.path → p.name = q.name)
    (hname : ∀ name, imp.name = some name → name.name ≠ "") :
    checkImport ctx imp = if hasRedundantAlias ctx imp then [warn imp] else [] := by
  unfold checkImport hasRedundantAlias
  cases hn : imp.name with
  | none => rfl
  | some name =>
    simp only
    by_cases hex : ∃ pkg ∈ ctx.pkgImports, pkg.path = Trim imp.pathValue "\""
    · obtain ⟨pkg, hmem, hpath⟩ := hex
      rw [findPkgName_matched imp ctx.pkgImports hpaths pkg hmem hpath]
      by_cases heq : name.name = pkg.name
      · rw [if_pos heq, if_pos]
        simp only [List.any_eq_true, Bool.and_eq_true, decide_eq_true_eq]
        exact ⟨pkg, hmem, hpath, heq⟩
      · rw [if_neg heq, if_neg]
        simp only [List.any_eq_true, Bool.and_eq_true, decide_eq_true_eq, not_exists, not_and]
        intro q hq hqpath hqname
        exact heq (hqname.trans (hpaths q hq pkg hmem (hqpath.trans hpath.symm)))
    · have hun : ∀ pkg ∈ ctx.pkgImports, pkg.path ≠ Trim imp.pathValue "\"" :=
        fun pkg hmem hpath => hex ⟨pkg, hmem, hpath⟩
      rw [findPkgName_unmatched imp ctx.pkgImports hun, if_neg (hname name hn), if_neg]
      simp only [List.any_eq_true, Bool.and_eq_true, decide_eq_true_eq, not_exists, not_and]
      intro q hq hqpath
      exact absurd hqpath (hun q hq)

theorem flatMap_ite {α β : Type} (p : α → Bool) (w : α → β) (l : List α) :
    l.flatMap (fun a => if p a then [w a] else []) = (l.filter p).map w := by
  induction l with
  | nil => rfl
  | cons a l ih =>
    rw [List.flatMap_cons, ih]
    by_cases h : p a = true
    · simp [h]
    · simp [h]

/-- C5: when the imported packages are told apart by their paths and aliases
are non-empty identifiers, `WalkFile` reports one warning per import clause
with a redundant alias, in the order of the clauses, so as many warnings as
there are such clauses. For a single clause: without alias it adds nothing;
with an alias and the path of an imported package it adds exactly one
warning, anchored at the clause, when the alias is the name of that package,
and nothing when the alias differs. -/
theorem warns_redundant_aliases (ctx : CheckerContext) (file : File)
    (hpaths : ∀ p ∈ ctx.pkgImports, ∀ q ∈ ctx.pkgImports, p.path = q.path → p.name = q.name)
    (hnames : ∀ imp ∈ file.imports, ∀ name, imp.name = some name → name.name ≠ "") :
    WalkFile ctx file = (file.imports.filter (hasRedundantAlias ctx)).map warn ∧
    (WalkFile ctx file).length = file.imports.countP (hasRedundantAlias ctx) ∧
    (∀ imp : ImportSpec, imp.name = none → checkImport ctx imp = []) ∧
    (∀ (imp : ImportSpec) (name : Ident) (pkg : Package), imp.name = some name →
      pkg ∈ ctx.pkgImports → pkg.path = Trim imp.pathValue "\"" →
      (name.name = pkg.name →
        checkImport ctx imp
          = [⟨.importSpec imp, "unnecessary rename of import package", []⟩]) ∧
      (name.name ≠ pkg.name → checkImport ctx imp = [])) := by
  have hwalk : WalkFile ctx file = (file.imports.filter (hasRedundantAlias ctx)).map warn := by
    rw [walkFile_eq_flatMap, ← flatMap_ite]
    apply List.flatMap_congr
    intro imp himp
    exact checkImport_eq ctx imp hpaths (hnames imp himp)
  refine ⟨hwalk, ?_, ?_, ?_⟩
  · rw [hwalk, List.length_map, List.countP_eq_length_filter]
  · intro imp hnone
    unfold checkImport
    rw [hnone]
  · intro imp name pkg hname hmem hpath
    unfold checkImport
    rw [hname]
    simp only
    rw [findPkgName_matched imp ctx.pkgImports hpaths pkg hmem hpath]
    constructor
    · intro heq; rw [if_pos heq]; rfl
    · intro hne; rw [if_neg hne]

/-- Witness of C5: the clause `import lint "github.com/go-critic/go-critic/lint"`
gets one warning. -/
theorem warns_redundant_aliases_witness :
    WalkFile samples.ctx ⟨[samples.lintImport]⟩ = [warn samples.lintImport] :=
  (warns_redundant_aliases samples.ctx ⟨[samples.lintImport]⟩ (by decide) (by decide)).1

/-- C6: an import clause whose path is the path of no imported package adds no
warning, whatever its alias (a non-empty identifier) is, and no warning of
`WalkFile` is anchored at it. -/
theorem skips_unresolved_import (ctx : CheckerContext) (file : File) (imp : ImportSpec)
    (hunmatched : ∀ pkg ∈ ctx.pkgImports, pkg.path ≠ Trim imp.pathValue "\"")
    (hname : ∀ name, imp.name = some name → name.name ≠ "") :
    checkImport ctx imp = [] ∧
    ∀ w ∈ WalkFile ctx file, w.node ≠ .importSpec imp := by
  have hnil : checkImport ctx imp = [] := by
    unfold checkImport
    cases hn : imp.name with
    | none => rfl
    | some name =>
      simp only
      rw [findPkgName_unmatched imp ctx.pkgImports hunmatched, if_neg (hname name hn)]
  refine ⟨hnil, ?_⟩
  intro w hw hnode
  rw [walkFile_eq_flatMap] at hw
  obtain ⟨imp2, _, hw2⟩ := List.mem_flatMap.1 hw
  have hw3 : w = warn imp2 := by
    unfold checkImport at hw2
    cases hn : imp2.name with
    | none => rw [hn] at hw2; cases hw2
    | some name =>
      rw [hn] at hw2
      simp only at hw2
      split at hw2
      · exact List.mem_singleton.1 hw2
      · cases hw2
  rw [hw3] at hnode hw2
  have heq : imp2 = imp := WarnNode.importSpec.inj hnode
  rw [heq, hnil] at hw2
  cases hw2

/-- Witness of C6: `import x "unknown/pkg"` is skipped. -/
theorem skips_unresolved_import_witness :
    checkImport samples.ctx samples.unknownImport = [] ∧
    ∀ w ∈ WalkFile samples.ctx ⟨[samples.lintImport, samples.unknownImport]⟩,
      w.node ≠ .importSpec samples.unknownImport :=
  skips_unresolved_import samples.ctx ⟨[samples.lintImport, samples.unknownImport]⟩
    samples.unknownImport (by decide) (by decide)

end importPackageNameChecker

/-! ## indexOnlyLoop -/

namespace indexOnlyLoopChecker

theorem tracks_id : Tracks (fun c => c) 0 := fun _ => ⟨le_rfl, le_rfl, fun _ => rfl⟩

theorem Tracks.comp {g k : Nat → Nat} {t u : Nat} (hg : Tracks g t) (hk : Tracks k u) :
    Tracks (fun c => k (g c)) (t + u) := by
  intro c
  obtain ⟨g1, g2, g3⟩ := hg c
  obtain ⟨k1, k2, k3⟩ := hk (g c)
  show c ≤ k (g c) ∧ k (g c) ≤ c + (t + u) ∧ (k (g c) < 2 → k (g c) = c + (t + u))
  refine ⟨by omega, by omega, fun hlt => ?_⟩
  have := k3 hlt
  have := g3 (by omega)
  omega

theorem Tracks.congr {g k : Nat → Nat} {t u : Nat} (hg : Tracks g t) (hfun : ∀ c, k c = g c)
    (ht : u = t) : Tracks k u := by
  subst ht
  intro c
  rw [hfun c]
  exact hg c

theorem countIndex_fst (ctx : CheckerContext) (key : Expr) (iterated : Object) (n : Node)
    (c : Nat) :
    (countIndex ctx key iterated n c).1 = c + (if isRederivation ctx key iterated n then 1 else 0) := by
  unfold countIndex isRederivation
  split
  · split
    · simp_all
    · split <;> simp_all
  · simp

theorem countIndex_snd (ctx : CheckerContext) (key : Expr) (iterated : Object) (n : Node)
    (c : Nat) (h : (countIndex ctx key iterated n c).2 = false) :
    2 ≤ (countIndex ctx key iterated n c).1 := by
  unfold countIndex at h ⊢
  split at h
  · split at h
    · simp at h
    · split at h <;> simp_all
  · simp_all

theorem Tracks.node (ctx : CheckerContext) (key : Expr) (iterated : Object) (n : Node)
    {g : Nat → Nat} {t : Nat} (hg : Tracks g t) :
    Tracks (fun c => if (countIndex ctx key iterated n c).2
        then g (countIndex ctx key iterated n c).1 else (countIndex ctx key iterated n c).1)
      ((if isRederivation ctx key iterated n then 1 else 0) + t) := by
  intro c
  have h1 := countIndex_fst ctx key iterated n c
  by_cases hgo : (countIndex ctx key iterated n c).2 = true
  · simp only [hgo, if_true]
    obtain ⟨g1, g2, g3⟩ := hg (countIndex ctx key iterated n c).1
    refine ⟨by omega, by omega, fun hlt => ?_⟩
    have := g3 hlt
    omega
  · have hfalse : (countIndex ctx key iterated n c).2 = false := by simpa using hgo
    have h2 := countIndex_snd ctx key iterated n c hfalse
    simp only [hfalse, Bool.false_eq_true, if_false]
    refine ⟨by omega, by omega, fun hlt => ?_⟩
    omega

section
variable (ctx : CheckerContext) (key : Expr) (iterated : Object)

theorem tracks_leaf (n : Node) :
    Tracks (fun c => (countIndex ctx key iterated n c).1)
      (if isRederivation ctx key iterated n then 1 else 0) :=
  (Tracks.node ctx key iterated n tracks_id).congr (fun c => by simp) (by simp)

mutual
theorem inspectExpr_tracks : ∀ e : Expr,
    Tracks (inspectExpr (countIndex ctx key iterated) e)
      ((exprNodes e).countP (isRederivation ctx key iterated))
  | .ident id =>
    (Tracks.node ctx key iterated (.expr (.ident id)) tracks_id).congr
      (fun c => by rw [inspectExpr])
      (by simp [exprNodes, List.countP_cons])
  | .selector x sel =>
    (Tracks.node ctx key iterated (.expr (.selector x sel))
      ((inspectExpr_tracks x).comp (tracks_leaf ctx key iterated (.expr (.ident sel))))).congr
      (fun c => by rw [inspectExpr])
      (by simp [exprNodes, blockNodes, List.countP_cons, List.countP_append]; omega)
  | .index x i =>
    (Tracks.node ctx key iterated (.expr (.index x i))
      ((inspectExpr_tracks x).comp (inspectExpr_tracks i))).congr
      (fun c => by rw [inspectExpr])
      (by simp [exprNodes, blockNodes, List.countP_cons, List.countP_append]; omega)
  | .call fn args ell =>
    (Tracks.node ctx key iterated (.expr (.call fn args ell))
      ((inspectExpr_tracks fn).comp (inspectExprs_tracks args))).congr
      (fun c => by rw [inspectExpr])
      (by simp [exprNodes, blockNodes, List.countP_cons, List.countP_append]; omega)
  | .funcLit t b =>
    (Tracks.node ctx key iterated (.expr (.funcLit t b))
      ((inspectExpr_tracks t).comp
        (Tracks.node ctx key iterated (.stmt (.block b)) (inspectStmts_tracks b)))).congr
      (fun c => by rw [inspectExpr])
      (by simp [exprNodes, blockNodes, List.countP_cons, List.countP_append]; omega)
  | .other k cs =>
    (Tracks.node ctx key iterated (.expr (.other k cs)) (inspectNodes_tracks cs)).congr
      (fun c => by rw [inspectExpr])
      (by simp [exprNodes, blockNodes, List.countP_cons, List.countP_append]; omega)
theorem inspectStmt_tracks : ∀ st : Stmt,
    Tracks (inspectStmt (countIndex ctx key iterated) st)
      ((stmtNodes st).countP (isRederivation ctx key iterated))
  | .assign l r =>
    (Tracks.node ctx key iterated (.stmt (.assign l r))
      ((inspectExprs_tracks l).comp (inspectExprs_tracks r))).congr
      (fun c => by rw [inspectStmt])
      (by simp [stmtNodes, blockNodes, List.countP_cons, List.countP_append]; omega)
  | .ret rs =>
    (Tracks.node ctx key iterated (.stmt (.ret rs)) (inspectExprs_tracks rs)).congr
      (fun c => by rw [inspectStmt])
      (by simp [stmtNodes, blockNodes, List.countP_cons, List.countP_append]; omega)
  | .exprStmt x =>
    (Tracks.node ctx key iterated (.stmt (.exprStmt x)) (inspectExpr_tracks x)).congr
      (fun c => by rw [inspectStmt])
      (by simp [stmtNodes, blockNodes, List.countP_cons, List.countP_append]; omega)
  | .deferStmt fn args ell =>
    (Tracks.node ctx key iterated (.stmt (.deferStmt fn args ell))
      (Tracks.node ctx key iterated (.expr (.call fn args ell))
        ((inspectExpr_tracks fn).comp (inspectExprs_tracks args)))).congr
      (fun c => by rw [inspectStmt])
      (by simp [stmtNodes, blockNodes, List.countP_cons, List.countP_append]; omega)
  | .range k v x b =>
    (Tracks.node ctx key iterated (.stmt (.range k v x b))
      ((((inspectOpt_tracks k).comp (inspectOpt_tracks v)).comp (inspectExpr_tracks x)).comp
        (Tracks.node ctx key iterated (.stmt (.block b)) (inspectStmts_tracks b)))).congr
      (fun c => by rw [inspectStmt])
      (by simp [stmtNodes, blockNodes, List.countP_cons, List.countP_append]; omega)
  | .block l =>
    (Tracks.node ctx key iterated (.stmt (.block l)) (inspectStmts_tracks l)).congr
      (fun c => by rw [inspectStmt])
      (by simp [stmtNodes, blockNodes, List.countP_cons, List.countP_append]; omega)
  | .other k cs =>
    (Tracks.node ctx key iterated (.stmt (.other k cs)) (inspectNodes_tracks cs)).congr
      (fun c => by rw [inspectStmt])
      (by simp [stmtNodes, blockNodes, List.countP_cons, List.countP_append]; omega)
theorem inspectOpt_tracks : ∀ o : Option Expr,
    Tracks (inspectOpt (countIndex ctx key iterated) o)
      ((optNodes o).countP (isRederivation ctx key iterated))
  | none => tracks_id.congr (fun c => by rw [inspectOpt]) (by simp [optNodes])
  | some e => (inspectExpr_tracks e).congr (fun c => by rw [inspectOpt]) (by simp [optNodes])
theorem inspectExprs_tracks : ∀ l : List Expr,
    Tracks (inspectExprs (countIndex ctx key iterated) l)
      ((exprsNodes l).countP (isRederivation ctx key iterated))
  | [] => tracks_id.congr (fun c => by rw [inspectExprs]) (by simp [exprsNodes])
  | e :: es =>
    ((inspectExpr_tracks e).comp (inspectExprs_tracks es)).congr
      (fun c => by rw [inspectExprs]) (by simp [exprsNodes, List.countP_append])
theorem inspectStmts_tracks : ∀ l : List Stmt,
    Tracks (inspectStmts (countIndex ctx key iterated) l)
      ((stmtsNodes l).countP (isRederivation ctx key iterated))
  | [] => tracks_id.congr (fun c => by rw [inspectStmts]) (by simp [stmtsNodes])
  | s :: ss =>
    ((inspectStmt_tracks s).comp (inspectStmts_tracks ss)).congr
      (fun c => by rw [inspectStmts]) (by simp [stmtsNodes, List.countP_append])
theorem inspectNodes_tracks : ∀ l : List Node,
    Tracks (inspectNodes (countIndex ctx key iterated) l)
      ((nodesNodes l).countP (isRederivation ctx key iterated))
  | [] => tracks_id.congr (fun c => by rw [inspectNodes]) (by simp [nodesNodes])
  | .expr e :: ns =>
    ((inspectExpr_tracks e).comp (inspectNodes_tracks ns)).congr
      (fun c => by rw [inspectNodes]) (by simp [nodesNodes, List.countP_append])
  | .stmt s :: ns =>
    ((inspectStmt_tracks s).comp (inspectNodes_tracks ns)).congr
      (fun c => by rw [inspectNodes]) (by simp [nodesNodes, List.countP_append])
end

theorem inspectBlock_tracks (l : List Stmt) :
    Tracks (inspectBlock (countIndex ctx key iterated) l)
      ((blockNodes l).countP (isRederivation ctx key iterated)) :=
  (Tracks.node ctx key iterated (.stmt (.block l)) (inspectStmts_tracks ctx key iterated l)).congr
    (fun c => by rw [inspectBlock])
    (by simp [blockNodes, List.countP_cons]; omega)

end

theorem inspectBlock_gt_one_iff (ctx : CheckerContext) (key : Expr) (iterated : Object)
    (body : List Stmt) :
    inspectBlock (countIndex ctx key iterated) body 0 > 1
      ↔ 2 ≤ rederivations ctx key iterated body := by
  obtain ⟨h1, h2, h3⟩ := inspectBlock_tracks ctx key iterated body 0
  unfold rederivations
  constructor
  · intro h; omega
  · intro h
    by_contra hlt
    have := h3 (by omega)
    omega

theorem elemTypeIsPtr_iff (ctx : CheckerContext) (obj : Object) :
    elemTypeIsPtr ctx obj = true ↔ IsSeqOfPointers (ctx.objType obj) := by
  unfold elemTypeIsPtr IsSeqOfPointers
  cases ctx.objType obj with
  | slice elem => cases elem <;> simp [IsPointer]
  | array n elem => cases elem <;> simp [IsPointer]
  | _ => simp

theorem visitStmt_range (ctx : CheckerContext) (key x : Expr) (body : List Stmt)
    (iterated : Object) (hobj : objectOfIdentOf ctx x = some iterated)
    (hptr : IsSeqOfPointers (ctx.objType iterated)) :
    VisitStmt ctx (.range (some key) none x body)
      = if 2 ≤ rederivations ctx key iterated body then
          [warn (.range (some key) none x body) key (ctx.objName iterated)]
        else [] := by
  unfold VisitStmt
  simp only [hobj]
  rw [(elemTypeIsPtr_iff ctx iterated).2 hptr]
  simp only [Bool.not_true, Bool.false_eq_true, if_false]
  by_cases h : 2 ≤ rederivations ctx key iterated body
  · rw [if_pos ((inspectBlock_gt_one_iff ctx key iterated body).2 h), if_pos h]
  · rw [if_neg (fun hgt => h ((inspectBlock_gt_one_iff ctx key iterated body).1 hgt)), if_neg h]

theorem astequalExpr_ident (index : Expr) (k : Ident) :
    astequalExpr index (.ident k) = true ↔ ∃ i : Ident, index = .ident i ∧ i.name = k.name := by
  cases index with
  | ident i => simp [astequalExpr]
  | _ => simp [astequalExpr]

theorem isRederivation_ident_key (ctx : CheckerContext) (k : Ident) (iterated : Object)
    (n : Node) :
    isRederivation ctx (.ident k) iterated n = isNamedIndex ctx k.name iterated n := by
  cases n with
  | stmt s => rfl
  | expr e =>
    cases e with
    | index x index =>
      cases index with
      | ident i => simp [isRederivation, isNamedIndex, astequalExpr]
      | _ => simp [isRederivation, isNamedIndex, astequalExpr]
    | _ => rfl

/-- C7: on a range statement that binds a key and no value and iterates an
expression resolving to a declaration whose type is a slice or array of
pointers, `VisitStmt` reports exactly one warning, anchored at the statement
and naming the iterated declaration in its message, when the nodes of the body
hold two or more index expressions whose index has the shape of the key and
whose operand resolves to the iterated declaration; with none or one such
index expression it reports nothing. -/
theorem warns_iff_two_rederivations (ctx : CheckerContext) (key x : Expr)
    (body : List Stmt) (iterated : Object)
    (hobj : objectOfIdentOf ctx x = some iterated)
    (hptr : IsSeqOfPointers (ctx.objType iterated)) :
    (2 ≤ rederivations ctx key iterated body →
      VisitStmt ctx (.range (some key) none x body)
        = [⟨.stmt (.range (some key) none x body),
            "%s occurs more than once in the loop; consider using for _, value := range %s",
            [.node (.expr key), .str (ctx.objName iterated)]⟩]) ∧
    (rederivations ctx key iterated body < 2 →
      VisitStmt ctx (.range (some key) none x body) = []) := by
  rw [visitStmt_range ctx key x body iterated hobj hptr]
  constructor
  · intro h; rw [if_pos h]; rfl
  · intro h; rw [if_neg (by omega)]

/-- Witness of C7: `for i := range xs { xs[i].Foo(); xs[i].Bar() }` over
`xs []*T` gets one warning naming `xs`. -/
theorem warns_iff_two_rederivations_witness :
    VisitStmt samples.ctx samples.twiceLoop
      = [⟨.stmt samples.twiceLoop,
          "%s occurs more than once in the loop; consider using for _, value := range %s",
          [.node (.expr (.ident (samples.id "i" 2))), .str "xs"]⟩] :=
  (warns_iff_two_rederivations samples.ctx (.ident (samples.id "i" 2))
    (.ident (samples.id "xs" 3)) [samples.callOnElem "xs" "Foo" 4, samples.callOnElem "xs" "Bar" 7]
    1 rfl (Or.inl ⟨_, rfl⟩)).1 (by decide)

/-- C8: `VisitStmt` reports nothing, whatever the body holds, when the
statement is not a range statement, or binds no key, or binds a value, or the
iterated expression resolves to no declaration, or the type of the iterated
declaration is not a slice or array with a pointer as element type. -/
theorem silent_outside_scope (ctx : CheckerContext) (stmt : Stmt)
    (h : (∀ k v x b, stmt ≠ .range k v x b) ∨
      (∃ v x b, stmt = .range none v x b) ∨
      (∃ k v x b, stmt = .range k (some v) x b) ∨
      (∃ k v x b, stmt = .range k v x b ∧ objectOfIdentOf ctx x = none) ∨
      (∃ k v x b iterated, stmt = .range k v x b ∧ objectOfIdentOf ctx x = some iterated ∧
        ¬ IsSeqOfPointers (ctx.objType iterated))) :
    VisitStmt ctx stmt = [] := by
  rcases h with h | ⟨v, x, b, rfl⟩ | ⟨k, v, x, b, rfl⟩ | ⟨k, v, x, b, rfl, hx⟩ |
    ⟨k, v, x, b, iterated, rfl, hx, hty⟩
  · unfold VisitStmt
    split
    · rename_i key x body
      exact absurd rfl (h (some key) none x body)
    · rfl
  · rfl
  · cases k <;> rfl
  · cases k with
    | none => rfl
    | some key =>
      cases v with
      | some value => rfl
      | none => unfold VisitStmt; simp only [hx]
  · cases k with
    | none => rfl
    | some key =>
      cases v with
      | some value => rfl
      | none =>
        have hf : elemTypeIsPtr ctx iterated = false := by
          cases hb : elemTypeIsPtr ctx iterated with
          | false => rfl
          | true => exact absurd ((elemTypeIsPtr_iff ctx iterated).1 hb) hty
        unfold VisitStmt
        simp only [hx, hf, Bool.not_false, if_true]

/-- Witness of C8: the loop over `vals []T` with two `vals[i]` in its body
gets no warning. -/
theorem silent_outside_scope_witness :
    VisitStmt samples.ctx samples.valueLoop = [] :=
  silent_outside_scope samples.ctx samples.valueLoop
    (Or.inr (Or.inr (Or.inr (Or.inr ⟨_, _, _, _, 5, rfl, rfl, by
      rintro (⟨elem, h⟩ | ⟨n, elem, h⟩)
      · have h2 : GoType.slice (.named (some "main") "T") = .slice (.pointer elem) := h
        cases h2
      · have h2 : GoType.slice (.named (some "main") "T") = .array n (.pointer elem) := h
        cases h2⟩))))

/-- Counterexample to C9 as stated: in
`for i := range xs { i := 0; xs[i].Foo(); xs[i].Bar() }` the index `i` of both
index expressions resolves to the variable declared in the body, not to the
loop key, and the loop is warned about all the same. -/
theorem shadowed_key_is_counted :
    samples.ctx.objectOf (samples.id "i" 2) = some 2 ∧
    samples.ctx.objectOf (samples.id "i" 14) = some 3 ∧
    samples.ctx.objectOf (samples.id "i" 17) = some 3 ∧
    VisitStmt samples.ctx samples.shadowLoop
      = [warn samples.shadowLoop (.ident (samples.id "i" 2)) "xs"] :=
  ⟨rfl, rfl, rfl, rfl⟩

/-- C9 (amended): an index expression in the loop body is counted as a
re-derivation when its index has the shape of the loop key, which for a key
that is an identifier means an identifier of the same name, and its operand
resolves to the iterated declaration; the declaration the index resolves to is
not consulted. So the loop is warned about exactly when the body holds two or
more index expressions `xs[i]` with `i` named like the key, shadowing or not. -/
theorem key_compared_by_name (ctx : CheckerContext) (k : Ident) (x : Expr)
    (body : List Stmt) (iterated : Object)
    (hobj : objectOfIdentOf ctx x = some iterated)
    (hptr : IsSeqOfPointers (ctx.objType iterated)) :
    VisitStmt ctx (.range (some (.ident k)) none x body)
      = if 2 ≤ (blockNodes body).countP (isNamedIndex ctx k.name iterated) then
          [warn (.range (some (.ident k)) none x body) (.ident k) (ctx.objName iterated)]
        else [] := by
  rw [visitStmt_range ctx (.ident k) x body iterated hobj hptr]
  unfold rederivations
  rw [show isRederivation ctx (.ident k) iterated = isNamedIndex ctx k.name iterated from
    funext (isRederivation_ident_key ctx k iterated)]

/-- Witness of C9 (amended), on the loop with the shadowing `i`. -/
theorem key_compared_by_name_witness :
    VisitStmt samples.ctx samples.shadowLoop
      = if 2 ≤ (blockNodes [.assign [.ident (samples.id "i" 10)] [.other 0 []],
            samples.callOnElem "xs" "Foo" 13, samples.callOnElem "xs" "Bar" 16]).countP
              (isNamedIndex samples.ctx "i" 1) then
          [warn samples.shadowLoop (.ident (samples.id "i" 2)) "xs"]
        else [] :=
  key_compared_by_name samples.ctx (samples.id "i" 2) (.ident (samples.id "xs" 3)) _ 1 rfl
    (Or.inl ⟨_, rfl⟩)

end indexOnlyLoopChecker

/-! ## sqlRowsClose -/

namespace sqlRowsCloseChecker

theorem appendRows_subset (ctx : CheckerContext) (xs : List Expr) (acc : List (Option Object)) :
    ∀ v ∈ acc, v ∈ appendRows ctx acc xs := by
  induction xs generalizing acc with
  | nil => intro v hv; exact hv
  | cons x xs ih =>
    intro v hv
    unfold appendRows
    rw [List.foldl_cons]
    apply ih
    split
    · exact List.mem_append_left _ hv
    · exact hv

theorem appendRows_mem (ctx : CheckerContext) (xs : List Expr) (acc : List (Option Object))
    (r : Expr) (hr : r ∈ xs) (hty : typeString ctx r = rowsTypePTR) :
    getType ctx r ∈ appendRows ctx acc xs := by
  induction xs generalizing acc with
  | nil => cases hr
  | cons x xs ih =>
    unfold appendRows
    rw [List.foldl_cons]
    rcases List.mem_cons.1 hr with rfl | hr2
    · apply appendRows_subset
      rw [if_pos hty]
      exact List.mem_append_right _ (List.mem_singleton_self _)
    · exact ih _ hr2

theorem appendClosed_subset (ctx : CheckerContext) (list : List Stmt)
    (acc : List (Option Object)) : ∀ v ∈ acc, v ∈ appendClosed ctx acc list := by
  induction list generalizing acc with
  | nil => intro v hv; exact hv
  | cons s ss ih =>
    intro v hv
    unfold appendClosed
    rw [List.foldl_cons]
    apply ih
    split
    · split
      · exact List.mem_append_left _ hv
      · exact hv
    · exact hv

theorem appendClosed_mem (ctx : CheckerContext) (list : List Stmt) (acc : List (Option Object))
    (x : Expr) (ss : Expr × Ident) (hx : Stmt.exprStmt x ∈ list)
    (hsel : getCloseSelectorExpr ctx x = some ss) :
    getType ctx ss.1 ∈ appendClosed ctx acc list := by
  induction list generalizing acc with
  | nil => cases hx
  | cons s rest ih =>
    unfold appendClosed
    rw [List.foldl_cons]
    rcases List.mem_cons.1 hx with rfl | hx2
    · apply appendClosed_subset
      simp only [hsel]
      exact List.mem_append_right _ (List.mem_singleton_self _)
    · exact ih _ hx2

theorem scanStmt_returnVars_subset (ctx : CheckerContext) (vars : Vars) (b : Stmt) :
    ∀ v ∈ vars.returnVars, v ∈ (scanStmt ctx vars b).returnVars := by
  intro v hv
  unfold scanStmt
  split
  · exact hv
  · exact appendRows_subset ctx _ _ v hv
  · split <;> exact hv
  · split
    · split <;> exact hv
    · exact hv
    · exact hv
  · exact hv

theorem scanStmt_closeVars_subset (ctx : CheckerContext) (vars : Vars) (b : Stmt) :
    ∀ v ∈ vars.closeVars, v ∈ (scanStmt ctx vars b).closeVars := by
  intro v hv
  unfold scanStmt
  split
  · exact hv
  · exact hv
  · split
    · exact List.mem_append_left _ hv
    · exact hv
  · split
    · split
      · exact List.mem_append_left _ hv
      · exact hv
    · exact appendClosed_subset ctx _ _ v hv
    · exact hv
  · exact hv

theorem foldl_scan_mem (ctx : CheckerContext) (p : Vars → List (Option Object))
    (hmono : ∀ vars b, ∀ v ∈ p vars, v ∈ p (scanStmt ctx vars b))
    (v : Option Object) (s : Stmt) (hadd : ∀ vars, v ∈ p (scanStmt ctx vars s))
    (body : List Stmt) (hs : s ∈ body) (init : Vars) :
    v ∈ p (body.foldl (scanStmt ctx) init) := by
  have hkeep : ∀ (l : List Stmt) (vars : Vars), v ∈ p vars → v ∈ p (l.foldl (scanStmt ctx) vars) := by
    intro l
    induction l with
    | nil => intro vars h; exact h
    | cons b bs ih => intro vars h; exact ih _ (hmono vars b v h)
  induction body generalizing init with
  | nil => cases hs
  | cons b bs ih =>
    rw [List.foldl_cons]
    rcases List.mem_cons.1 hs with rfl | hs2
    · exact hkeep bs _ (hadd init)
    · exact ih hs2 _

theorem getCloseSelectorExpr_close (ctx : CheckerContext)
    (hq : ∀ id : Ident, ctx.qualifiedName (.ident id) = id.name)
    (recv : Expr) (sel : Ident) (args : List Expr) (ell : Bool) (hsel : sel.name = "Close") :
    getCloseSelectorExpr ctx (.call (.selector recv sel) args ell) = some (recv, sel) := by
  unfold getCloseSelectorExpr
  simp [hq, hsel]

theorem handled_in_lists (ctx : CheckerContext)
    (hq : ∀ id : Ident, ctx.qualifiedName (.ident id) = id.name)
    (body : List Stmt) (d : Object) (h : Handled ctx body d) :
    some d ∈ (scanBody ctx body).returnVars ∨ some d ∈ (scanBody ctx body).closeVars := by
  rcases h with ⟨results, r, hmem, hr, hty, hd⟩ | ⟨recv, sel, args, ell, hmem, hsel, hd⟩ |
    ⟨recv, sel, args, ell, hmem, hsel, hd⟩ |
    ⟨typ, list, dargs, dell, recv, sel, args, ell, hmem, hin, hsel, hd⟩
  · left
    refine foldl_scan_mem ctx (fun vars => vars.returnVars) (scanStmt_returnVars_subset ctx)
      (some d) (.ret results) ?_ body hmem _
    intro vars
    rw [← hd]
    exact appendRows_mem ctx results _ r hr hty
  · right
    refine foldl_scan_mem ctx (fun vars => vars.closeVars) (scanStmt_closeVars_subset ctx)
      (some d) _ ?_ body hmem _
    intro vars
    simp only [scanStmt, getCloseSelectorExpr_close ctx hq recv sel args ell hsel, hd]
    exact List.mem_append_right _ (List.mem_singleton_self _)
  · right
    refine foldl_scan_mem ctx (fun vars => vars.closeVars) (scanStmt_closeVars_subset ctx)
      (some d) _ ?_ body hmem _
    intro vars
    simp only [scanStmt, hq, hsel, if_true, hd]
    exact List.mem_append_right _ (List.mem_singleton_self _)
  · right
    refine foldl_scan_mem ctx (fun vars => vars.closeVars) (scanStmt_closeVars_subset ctx)
      (some d) _ ?_ body hmem _
    intro vars
    simp only [scanStmt]
    rw [← hd]
    exact appendClosed_mem ctx list _ _ (recv, sel) hin
      (getCloseSelectorExpr_close ctx hq recv sel args ell hsel)

theorem checkLocals_warnings (ctx : CheckerContext) (rv cv : List (Option Object))
    (ls : List (Option Object)) (ws : List Warning) :
    (checkLocals ctx rv cv ls ws).warnings
      = ws ++ (warnedLocals rv cv ls).map (warnLocal ctx) := by
  induction ls generalizing ws with
  | nil => simp [checkLocals, warnedLocals, Outcome.warnings]
  | cons l ls ih =>
    unfold checkLocals warnedLocals
    split
    · cases l with
      | none => simp [Outcome.warnings]
      | some obj => simp [ih]
    · exact ih ws

theorem warnedLocals_unhandled (rv cv : List (Option Object)) (ls : List (Option Object))
    (d : Object) (h : d ∈ warnedLocals rv cv ls) :
    varInList (some d) rv = false ∧ varInList (some d) cv = false := by
  induction ls with
  | nil => simp [warnedLocals] at h
  | cons l ls ih =>
    unfold warnedLocals at h
    split at h
    · rename_i hcond
      cases l with
      | none => simp at h
      | some obj =>
        simp only [List.mem_cons] at h
        rcases h with rfl | h
        · simpa using hcond
        · exact ih h
    · exact ih h

theorem varInList_of_mem (v : Option Object) (l : List (Option Object)) (h : v ∈ l) :
    varInList v l = true := by
  unfold varInList
  simp only [List.any_eq_true, decide_eq_true_eq]
  exact ⟨v, h, rfl⟩

theorem checkLocals_all_handled (ctx : CheckerContext) (rv cv : List (Option Object))
    (ls : List (Option Object)) (ws : List Warning)
    (h : ∀ l ∈ ls, varInList l rv = true ∨ varInList l cv = true) :
    checkLocals ctx rv cv ls ws = .done ws := by
  induction ls with
  | nil => rfl
  | cons l ls ih =>
    unfold checkLocals
    have hl := h l (List.mem_cons_self _ _)
    rw [if_neg]
    · exact ih (fun l2 h2 => h l2 (List.mem_cons_of_mem _ h2))
    · rcases hl with hl | hl <;> simp [hl]

/-- C10: for a function body, with `qualifiedName` giving the name of a plain
identifier, a declaration that is (a) an operand with the rows type of a
top-level `return`, (b) the receiver of a call of `Close` that is a top-level
expression statement, (c) the receiver of `Close` in a top-level
`defer x.Close()`, or (d) the receiver of a call of `Close` that is a
statement of the body of a top-level deferred function literal, is not among
the declarations `VisitFuncDecl` warns about, wherever in the body that
statement stands; the warnings are those of the warned declarations, and when
every local variable with the rows type is that declaration the visit ends
without any warning. -/
theorem no_warning_for_handled (ctx : CheckerContext) (decl : FuncDecl)
    (body : List Stmt) (d : Object)
    (hbody : decl.body = some body)
    (hq : ∀ id : Ident, ctx.qualifiedName (.ident id) = id.name)
    (h : Handled ctx body d) :
    (VisitFuncDecl ctx decl).warnings = (warnedVars ctx decl).map (warnLocal ctx) ∧
    d ∉ warnedVars ctx decl ∧
    ((∀ l ∈ (scanBody ctx body).localVars, l = some d) → VisitFuncDecl ctx decl = .done []) := by
  have hlists := handled_in_lists ctx hq body d h
  have hin : varInList (some d) (scanBody ctx body).returnVars = true ∨
      varInList (some d) (scanBody ctx body).closeVars = true := by
    rcases hlists with h1 | h1
    · exact Or.inl (varInList_of_mem _ _ h1)
    · exact Or.inr (varInList_of_mem _ _ h1)
  refine ⟨?_, ?_, ?_⟩
  · unfold VisitFuncDecl warnedVars
    rw [hbody]
    simp only
    rw [checkLocals_warnings]
    rfl
  · unfold warnedVars
    rw [hbody]
    intro hmem
    have := warnedLocals_unhandled _ _ _ d hmem
    rcases hin with h1 | h1
    · rw [this.1] at h1; cases h1
    · rw [this.2] at h1; cases h1
  · intro hall
    unfold VisitFuncDecl
    rw [hbody]
    simp only
    apply checkLocals_all_handled
    intro l hl
    rw [hall l hl]
    exact hin

/-- Witness of C10: in `rows, _ := db.Query(); defer rows.Close()` the
variable `rows` is not warned about and the visit reports nothing. -/
theorem no_warning_for_handled_witness :
    (VisitFuncDecl samples.ctx samples.closedDecl).warnings
      = (warnedVars samples.ctx samples.closedDecl).map (warnLocal samples.ctx) ∧
    4 ∉ warnedVars samples.ctx samples.closedDecl ∧
    ((∀ l ∈ (scanBody samples.ctx samples.closedBody).localVars, l = some 4) →
      VisitFuncDecl samples.ctx samples.closedDecl = .done []) :=
  no_warning_for_handled samples.ctx samples.closedDecl samples.closedBody 4 rfl
    (fun _ => rfl)
    (Or.inr (Or.inr (Or.inl ⟨.ident (samples.id "rows" 5), samples.id "Close" 6, [], false,
      List.mem_cons_of_mem _ (List.mem_cons_self _ _), rfl, rfl⟩)))

end sqlRowsCloseChecker

/-! ## sqlRowsClose: what is warned about, and when the visit fails -/

namespace sqlRowsCloseChecker

theorem appendRows_eq (ctx : CheckerContext) (xs : List Expr) (acc : List (Option Object)) :
    appendRows ctx acc xs
      = acc ++ (xs.filter (fun l => decide (typeString ctx l = rowsTypePTR))).map (getType ctx) := by
  induction xs generalizing acc with
  | nil => simp [appendRows]
  | cons x xs ih =>
    unfold appendRows
    rw [List.foldl_cons]
    have ih2 := ih (if typeString ctx x = rowsTypePTR then acc ++ [getType ctx x] else acc)
    unfold appendRows at ih2
    rw [ih2]
    by_cases hx : typeString ctx x = rowsTypePTR
    · simp [hx]
    · simp [hx]

theorem appendClosed_cons (ctx : CheckerContext) (s : Stmt) (ss : List Stmt)
    (acc : List (Option Object)) :
    appendClosed ctx acc (s :: ss)
      = appendClosed ctx
          (match s with
            | .exprStmt x =>
              match getCloseSelectorExpr ctx x with
              | some sel => acc ++ [getType ctx sel.1]
              | none => acc
            | _ => acc) ss := rfl

theorem appendClosed_eq (ctx : CheckerContext) (list : List Stmt) (acc : List (Option Object)) :
    appendClosed ctx acc list = acc ++ appendClosed ctx [] list := by
  induction list generalizing acc with
  | nil => simp [appendClosed]
  | cons s ss ih =>
    rw [appendClosed_cons ctx s ss acc, appendClosed_cons ctx s ss []]
    cases s with
    | exprStmt x =>
      simp only
      cases getCloseSelectorExpr ctx x with
      | none => simp only; exact ih acc
      | some sel =>
        simp only
        rw [ih (acc ++ [getType ctx sel.1]), ih ([] ++ [getType ctx sel.1])]
        simp
    | _ => simp only; exact ih acc

theorem scanStmt_eq (ctx : CheckerContext) (vars : Vars) (b : Stmt) :
    scanStmt ctx vars b
      = ⟨vars.localVars ++ (stmtVars ctx b).localVars,
          vars.returnVars ++ (stmtVars ctx b).returnVars,
          vars.closeVars ++ (stmtVars ctx b).closeVars⟩ := by
  unfold stmtVars scanStmt
  cases b with
  | assign lhs rhs => simp [appendRows_eq ctx lhs vars.localVars, appendRows_eq ctx lhs []]
  | ret results => simp [appendRows_eq ctx results vars.returnVars, appendRows_eq ctx results []]
  | exprStmt x =>
    simp only
    split <;> simp
  | deferStmt fn args ell =>
    simp only
    split
    · split <;> simp
    · simp only [List.append_nil]
      rw [appendClosed_eq]
    · simp
  | range k v x body => simp
  | block l => simp
  | other k cs => simp

theorem foldl_scanStmt_eq (ctx : CheckerContext) (body : List Stmt) (init : Vars) :
    body.foldl (scanStmt ctx) init
      = ⟨init.localVars ++ body.flatMap (fun b => (stmtVars ctx b).localVars),
          init.returnVars ++ body.flatMap (fun b => (stmtVars ctx b).returnVars),
          init.closeVars ++ body.flatMap (fun b => (stmtVars ctx b).closeVars)⟩ := by
  induction body generalizing init with
  | nil => simp
  | cons b bs ih =>
    rw [List.foldl_cons, ih, scanStmt_eq]
    simp [List.flatMap_cons, List.append_assoc]

theorem scanBody_eq (ctx : CheckerContext) (body : List Stmt) :
    scanBody ctx body
      = ⟨body.flatMap (fun b => (stmtVars ctx b).localVars),
          body.flatMap (fun b => (stmtVars ctx b).returnVars),
          body.flatMap (fun b => (stmtVars ctx b).closeVars)⟩ := by
  unfold scanBody
  rw [foldl_scanStmt_eq]
  simp

theorem stmtVars_localVars (ctx : CheckerContext) (b : Stmt) :
    (stmtVars ctx b).localVars
      = (match b with
        | .assign lhs _ => lhs.filter (fun l => decide (typeString ctx l = rowsTypePTR))
        | _ => []).map (getType ctx) := by
  unfold stmtVars scanStmt
  cases b with
  | assign lhs rhs => simp [appendRows_eq ctx lhs []]
  | ret results => simp
  | exprStmt x => simp only; split <;> simp
  | deferStmt fn args ell =>
    simp only
    split
    · split <;> simp
    · simp
    · simp
  | range k v x body => simp
  | block l => simp
  | other k cs => simp

theorem scanBody_localVars (ctx : CheckerContext) (body : List Stmt) :
    (scanBody ctx body).localVars = (cursorTargets ctx body).map (getType ctx) := by
  rw [scanBody_eq]
  unfold cursorTargets
  simp only
  induction body with
  | nil => simp
  | cons b bs ih =>
    rw [List.flatMap_cons, List.flatMap_cons, List.map_append, ih, stmtVars_localVars]

theorem checkLocals_resolved (ctx : CheckerContext) (rv cv : List (Option Object))
    (ls : List (Option Object)) (ws : List Warning)
    (h : ∀ l ∈ ls, (!varInList l rv && !varInList l cv) = true → l ≠ none) :
    checkLocals ctx rv cv ls ws
      = .done (ws ++ ((ls.filter (fun l => !varInList l rv && !varInList l cv)).filterMap
          (fun l => l)).map (warnLocal ctx)) := by
  induction ls generalizing ws with
  | nil => simp [checkLocals]
  | cons l ls ih =>
    have ih2 := fun ws => ih ws (fun l2 h2 => h l2 (List.mem_cons_of_mem _ h2))
    unfold checkLocals
    by_cases hl : (!varInList l rv && !varInList l cv) = true
    · rw [if_pos hl]
      cases l with
      | none => exact absurd rfl (h none (List.mem_cons_self _ _) hl)
      | some obj =>
        simp only
        have hf : (some obj :: ls).filter (fun l => !varInList l rv && !varInList l cv)
            = some obj :: ls.filter (fun l => !varInList l rv && !varInList l cv) :=
          List.filter_cons_of_pos hl
        rw [ih2, hf]
        simp
    · have hf : (l :: ls).filter (fun l => !varInList l rv && !varInList l cv)
          = ls.filter (fun l => !varInList l rv && !varInList l cv) :=
        List.filter_cons_of_neg hl
      rw [if_neg hl, ih2, hf]

end sqlRowsCloseChecker

namespace sqlRowsCloseChecker

theorem visit_of_resolved (ctx : CheckerContext) (decl : FuncDecl) (body : List Stmt)
    (hbody : decl.body = some body)
    (hres : ∀ l ∈ cursorTargets ctx body, getType ctx l ≠ none) :
    VisitFuncDecl ctx decl
      = .done (((((cursorTargets ctx body).map (getType ctx)).filter
          (isUnhandled ctx body)).filterMap (fun l => l)).map (warnLocal ctx)) := by
  unfold VisitFuncDecl
  rw [hbody]
  simp only
  rw [checkLocals_resolved, scanBody_localVars]
  · rfl
  · intro l hl _
    rw [scanBody_localVars] at hl
    obtain ⟨e, he, rfl⟩ := List.mem_map.1 hl
    exact hres e he

theorem varInList_congr (v : Option Object) (l₁ l₂ : List (Option Object))
    (h : ∀ a, a ∈ l₁ ↔ a ∈ l₂) : varInList v l₁ = varInList v l₂ := by
  unfold varInList
  rw [Bool.eq_iff_iff]
  simp only [List.any_eq_true, decide_eq_true_eq]
  constructor
  · rintro ⟨r, hr, rfl⟩; exact ⟨v, (h v).1 hr, rfl⟩
  · rintro ⟨r, hr, rfl⟩; exact ⟨v, (h v).2 hr, rfl⟩

theorem isUnhandled_perm (ctx : CheckerContext) (body body2 : List Stmt)
    (hperm : body.Perm body2) (l : Option Object) :
    isUnhandled ctx body l = isUnhandled ctx body2 l := by
  unfold isUnhandled
  rw [scanBody_eq ctx body, scanBody_eq ctx body2]
  simp only
  rw [varInList_congr l _ _ (fun a => (hperm.flatMap_right _).mem_iff),
    varInList_congr l (body.flatMap fun b => (stmtVars ctx b).closeVars) _
      (fun a => (hperm.flatMap_right _).mem_iff)]

theorem warnings_perm_of_resolved (ctx : CheckerContext) (name : Ident) (type : FuncType)
    (body body2 : List Stmt) (hperm : body.Perm body2)
    (hres : ∀ l ∈ cursorTargets ctx body, getType ctx l ≠ none) :
    ∃ ws ws2, VisitFuncDecl ctx ⟨name, type, some body⟩ = .done ws ∧
      VisitFuncDecl ctx ⟨name, type, some body2⟩ = .done ws2 ∧ ws.Perm ws2 := by
  have htargets : (cursorTargets ctx body).Perm (cursorTargets ctx body2) :=
    hperm.flatMap_right _
  have hres2 : ∀ l ∈ cursorTargets ctx body2, getType ctx l ≠ none :=
    fun l hl => hres l (htargets.mem_iff.2 hl)
  refine ⟨_, _, visit_of_resolved ctx _ body rfl hres, visit_of_resolved ctx _ body2 rfl hres2, ?_⟩
  have hfun : isUnhandled ctx body = isUnhandled ctx body2 :=
    funext (isUnhandled_perm ctx body body2 hperm)
  rw [hfun]
  exact ((((htargets.map _).filter _).filterMap _).map _)

theorem scanStmt_unclassified (ctx : CheckerContext) (vars : Vars) (s : Stmt)
    (hs : isUnclassified s = true) : scanStmt ctx vars s = vars := by
  cases s with
  | range k v x body => rfl
  | block l => rfl
  | other k cs => rfl
  | _ => simp [isUnclassified] at hs

theorem scanBody_unclassified (ctx : CheckerContext) (pre post : List Stmt) (s : Stmt)
    (hs : isUnclassified s = true) :
    scanBody ctx (pre ++ s :: post) = scanBody ctx (pre ++ post) := by
  unfold scanBody
  rw [List.foldl_append, List.foldl_cons, scanStmt_unclassified ctx _ s hs, ← List.foldl_append]

/-- Counterexample to C11 as stated: in
`rows, _ := db.Query(); rows, _ = db.Query()` both targets are the one
declaration `rows`, which is neither returned nor closed, and the visit warns
twice, once per assignment. -/
theorem warns_once_per_assignment :
    (cursorTargets samples.ctx
        [samples.queryAssign (.ident (samples.id "rows" 1)),
          samples.queryAssign (.ident (samples.id "rows" 11))]).map (getType samples.ctx)
      = [some 4, some 4] ∧
    VisitFuncDecl samples.ctx samples.reassignedDecl
      = .done [warnLocal samples.ctx 4, warnLocal samples.ctx 4] :=
  ⟨rfl, rfl⟩

/-- C12, the code at the failing input: in
`rows, _ := db.Query(); process(rows)` the variable `rows` is passed to
another function, and the visit warns about it all the same. -/
theorem passed_cursor_is_warned :
    VisitFuncDecl samples.ctx samples.passedDecl = .done [warnLocal samples.ctx 4] :=
  rfl

/-- C13, the code at the failing input: in `getCache()[0], _ = db.Query()`
the target has the rows type and, its operand being a call, resolves to no
declaration; the nil object is appended to `localVars`, and the visit panics
at `l.Parent()`. -/
theorem visit_panics :
    typeString samples.ctxB samples.cacheElem = rowsTypePTR ∧
    getType samples.ctxB samples.cacheElem = none ∧
    VisitFuncDecl samples.ctxB (samples.loadDecl [samples.queryAssign samples.cacheElem])
      = .panic [] :=
  ⟨rfl, rfl, rfl⟩

/-- C15, the code at the failing input: in `globalRows, _ = db.Query()` the
target is a variable of the package (its scope is scope 1, not the scope of
the function), and the visit reports it, anchored at the package scope. -/
theorem package_variable_is_warned :
    samples.ctxB.objParent 6 = some 1 ∧
    VisitFuncDecl samples.ctxB samples.globalDecl
      = .done [⟨.scope (some 1), "local variable db.Rows have not Close call", []⟩] :=
  ⟨rfl, rfl⟩

/-- C16: putting in or taking out, anywhere at the top level of a body, a
statement that is not an assignment, a return, an expression statement or a
defer leaves the outcome of `VisitFuncDecl` as it is, whatever the statement
holds: the same warnings, and a panic only where there was one. -/
theorem unclassified_stmt_ignored (ctx : CheckerContext) (name : Ident) (type : FuncType)
    (pre post : List Stmt) (s : Stmt) (hs : isUnclassified s = true) :
    VisitFuncDecl ctx ⟨name, type, some (pre ++ s :: post)⟩
      = VisitFuncDecl ctx ⟨name, type, some (pre ++ post)⟩ := by
  unfold VisitFuncDecl
  simp only
  rw [scanBody_unclassified ctx pre post s hs]

/-- Witness of C16: an `if` statement holding `rows.Close()`, put after
`rows, _ := db.Query()`, does not take the warning away. -/
theorem unclassified_stmt_ignored_witness :
    VisitFuncDecl samples.ctx ⟨samples.id "load" 0, ⟨some ⟨[]⟩, none⟩,
        some ([samples.queryAssign (.ident (samples.id "rows" 1))] ++
          Stmt.other 7 [.stmt (.exprStmt (.call (.selector (.ident (samples.id "rows" 5))
            (samples.id "Close" 6)) [] false))] :: [])⟩
      = VisitFuncDecl samples.ctx ⟨samples.id "load" 0, ⟨some ⟨[]⟩, none⟩,
        some ([samples.queryAssign (.ident (samples.id "rows" 1))] ++ [])⟩ :=
  unclassified_stmt_ignored samples.ctx _ _ _ _ _ rfl

/-- C19, the code at the failing input: the bodies
`getCache()[0], _ = db.Query(); rows, _ := db.Query()` and
`rows, _ := db.Query(); getCache()[0], _ = db.Query()` hold the same
statements, yet the first visit panics before any warning and the second after
the warning for `rows`. -/
theorem panic_depends_on_order :
    samples.elemFirstBody.Perm samples.rowsFirstBody ∧
    VisitFuncDecl samples.ctxB (samples.loadDecl samples.elemFirstBody) = .panic [] ∧
    VisitFuncDecl samples.ctxB (samples.loadDecl samples.rowsFirstBody)
      = .panic [warnLocal samples.ctxB 4] :=
  ⟨List.Perm.swap _ _ _, rfl, rfl⟩

end sqlRowsCloseChecker

/-! ## indexOnlyLoop: the early stop -/

namespace indexOnlyLoopChecker

theorem countIndexFull_eq (ctx : CheckerContext) (key : Expr) (iterated : Object) (n : Node)
    (c : Nat) :
    countIndexFull ctx key iterated n c
      = (c + (if isRederivation ctx key iterated n then 1 else 0), true) := by
  unfold countIndexFull isRederivation
  split
  · split <;> simp_all
  · simp

section
variable (ctx : CheckerContext) (key : Expr) (iterated : Object)

mutual
theorem inspectExpr_full : ∀ (e : Expr) (c : Nat),
    inspectExpr (countIndexFull ctx key iterated) e c
      = c + (exprNodes e).countP (isRederivation ctx key iterated)
  | .ident id, c => by
    rw [inspectExpr]
    simp [countIndexFull_eq, exprNodes, List.countP_cons]
  | .selector x sel, c => by
    rw [inspectExpr]
    simp only [countIndexFull_eq, if_true]
    rw [inspectExpr_full x]
    simp [exprNodes, List.countP_cons, List.countP_append]
    omega
  | .index x i, c => by
    rw [inspectExpr]
    simp only [countIndexFull_eq, if_true]
    rw [inspectExpr_full x, inspectExpr_full i]
    simp [exprNodes, List.countP_cons, List.countP_append]
    omega
  | .call fn args ell, c => by
    rw [inspectExpr]
    simp only [countIndexFull_eq, if_true]
    rw [inspectExpr_full fn, inspectExprs_full args]
    simp [exprNodes, List.countP_cons, List.countP_append]
    omega
  | .funcLit t b, c => by
    rw [inspectExpr]
    simp only [countIndexFull_eq, if_true]
    rw [inspectExpr_full t, inspectStmts_full b]
    simp [exprNodes, List.countP_cons, List.countP_append]
    omega
  | .other k cs, c => by
    rw [inspectExpr]
    simp only [countIndexFull_eq, if_true]
    rw [inspectNodes_full cs]
    simp [exprNodes, List.countP_cons, List.countP_append]
    omega
theorem inspectStmt_full : ∀ (st : Stmt) (c : Nat),
    inspectStmt (countIndexFull ctx key iterated) st c
      = c + (stmtNodes st).countP (isRederivation ctx key iterated)
  | .assign l r, c => by
    rw [inspectStmt]
    simp only [countIndexFull_eq, if_true]
    rw [inspectExprs_full l, inspectExprs_full r]
    simp [stmtNodes, List.countP_cons, List.countP_append]
    omega
  | .ret rs, c => by
    rw [inspectStmt]
    simp only [countIndexFull_eq, if_true]
    rw [inspectExprs_full rs]
    simp [stmtNodes, List.countP_cons, List.countP_append]
    omega
  | .exprStmt x, c => by
    rw [inspectStmt]
    simp only [countIndexFull_eq, if_true]
    rw [inspectExpr_full x]
    simp [stmtNodes, List.countP_cons, List.countP_append]
    omega
  | .deferStmt fn args ell, c => by
    rw [inspectStmt]
    simp only [countIndexFull_eq, if_true]
    rw [inspectExpr_full fn, inspectExprs_full args]
    simp [stmtNodes, List.countP_cons, List.countP_append]
    omega
  | .range k v x b, c => by
    rw [inspectStmt]
    simp only [countIndexFull_eq, if_true]
    rw [inspectOpt_full k, inspectOpt_full v, inspectExpr_full x, inspectStmts_full b]
    simp [stmtNodes, List.countP_cons, List.countP_append]
    omega
  | .block l, c => by
    rw [inspectStmt]
    simp only [countIndexFull_eq, if_true]
    rw [inspectStmts_full l]
    simp [stmtNodes, List.countP_cons, List.countP_append]
    omega
  | .other k cs, c => by
    rw [inspectStmt]
    simp only [countIndexFull_eq, if_true]
    rw [inspectNodes_full cs]
    simp [stmtNodes, List.countP_cons, List.countP_append]
    omega
theorem inspectOpt_full : ∀ (o : Option Expr) (c : Nat),
    inspectOpt (countIndexFull ctx key iterated) o c
      = c + (optNodes o).countP (isRederivation ctx key iterated)
  | none, c => by rw [inspectOpt]; simp [optNodes]
  | some e, c => by rw [inspectOpt, inspectExpr_full e]; simp [optNodes]
theorem inspectExprs_full : ∀ (l : List Expr) (c : Nat),
    inspectExprs (countIndexFull ctx key iterated) l c
      = c + (exprsNodes l).countP (isRederivation ctx key iterated)
  | [], c => by rw [inspectExprs]; simp [exprsNodes]
  | e :: es, c => by
    rw [inspectExprs, inspectExpr_full e, inspectExprs_full es]
    simp [exprsNodes, List.countP_append]
    omega
theorem inspectStmts_full : ∀ (l : List Stmt) (c : Nat),
    inspectStmts (countIndexFull ctx key iterated) l c
      = c + (stmtsNodes l).countP (isRederivation ctx key iterated)
  | [], c => by rw [inspectStmts]; simp [stmtsNodes]
  | s :: ss, c => by
    rw [inspectStmts, inspectStmt_full s, inspectStmts_full ss]
    simp [stmtsNodes, List.countP_append]
    omega
theorem inspectNodes_full : ∀ (l : List Node) (c : Nat),
    inspectNodes (countIndexFull ctx key iterated) l c
      = c + (nodesNodes l).countP (isRederivation ctx key iterated)
  | [], c => by rw [inspectNodes]; simp [nodesNodes]
  | .expr e :: ns, c => by
    rw [inspectNodes, inspectExpr_full e, inspectNodes_full ns]
    simp [nodesNodes, List.countP_append]
    omega
  | .stmt s :: ns, c => by
    rw [inspectNodes, inspectStmt_full s, inspectNodes_full ns]
    simp [nodesNodes, List.countP_append]
    omega
end

theorem inspectBlock_full (l : List Stmt) (c : Nat) :
    inspectBlock (countIndexFull ctx key iterated) l c
      = c + (blockNodes l).countP (isRederivation ctx key iterated) := by
  rw [inspectBlock]
  simp only [countIndexFull_eq, if_true]
  rw [inspectStmts_full ctx key iterated l]
  simp [blockNodes, List.countP_cons]
  omega

end

/-- C17: for every loop body, key and oracle, the verdict `count > 1` of the
traversal that stops early (the callback of `VisitStmt`) is the verdict of the
full traversal, which reaches every node of the body and counts every index
expression `sequence[key]`: both hold exactly when the body has two or more
such index expressions, and only then `VisitStmt` warns. -/
theorem early_stop_is_optimisation (ctx : CheckerContext) (key : Expr) (iterated : Object)
    (body : List Stmt) :
    (inspectBlock (countIndex ctx key iterated) body 0 > 1
      ↔ inspectBlock (countIndexFull ctx key iterated) body 0 > 1) ∧
    inspectBlock (countIndexFull ctx key iterated) body 0
      = (blockNodes body).countP (isRederivation ctx key iterated) ∧
    (inspectBlock (countIndex ctx key iterated) body 0 > 1
      ↔ 2 ≤ (blockNodes body).countP (isRederivation ctx key iterated)) := by
  have hfull := inspectBlock_full ctx key iterated body 0
  have hearly := inspectBlock_gt_one_iff ctx key iterated body
  unfold rederivations at hearly
  rw [Nat.zero_add] at hfull
  refine ⟨?_, hfull, hearly⟩
  rw [hearly, hfull]
  constructor <;> intro h <;> omega

end indexOnlyLoopChecker

/-! ## blankParam and boolFuncPrefix: order and totality -/

namespace blankParamChecker

theorem removeUsedFull_spec (uses : List Ident) (m : GoMap (Option AstObject) Ident) :
    removeUsedFull uses m = m.filter (fun e => uses.all (fun u => decide (u.obj ≠ e.1))) := by
  induction uses generalizing m with
  | nil => simp [removeUsedFull]
  | cons id ids ih =>
    have hfilter : m.filter (fun e => (id :: ids).all (fun u => decide (u.obj ≠ e.1)))
        = (GoMap.delete m id.obj).filter (fun e => ids.all (fun u => decide (u.obj ≠ e.1))) := by
      unfold GoMap.delete
      rw [List.filter_filter]
      apply List.filter_congr
      intro e _
      simp only [List.all_cons, ne_eq, decide_not, Bool.and_comm]
      by_cases h : e.1 = id.obj <;> simp [h, eq_comm]
    rw [hfilter, removeUsedFull]
    by_cases hhas : GoMap.has m id.obj = true
    · rw [if_pos hhas]; exact ih _
    · rw [if_neg hhas]
      have hnot : id.obj ∉ m.map Prod.fst := by
        intro hmem
        apply hhas
        obtain ⟨e, he, hk⟩ := List.mem_map.1 hmem
        simp only [GoMap.has, List.any_eq_true, decide_eq_true_eq]
        exact ⟨e, he, hk⟩
      rw [GoMap.delete_of_not_mem m _ hnot]; exact ih _

theorem left_perm (uses : List Ident) (m : GoMap (Option AstObject) Ident) (seed : Nat) :
    (match removeUsed uses m with
      | none => []
      | some left =>
        (GoMap.range seed left).map (fun e : Option AstObject × Ident => warn e.2)).Perm
      ((m.filter (fun e : Option AstObject × Ident =>
          uses.all (fun u => decide (u.obj ≠ e.1)))).map
        (fun e : Option AstObject × Ident => warn e.2)) := by
  rw [← removeUsed_spec]
  cases removeUsed uses m with
  | none => simp
  | some left =>
    simp only [Option.getD_some]
    exact (GoMap.range_perm seed left).map _

theorem all_unused_perm (uses uses2 : List Ident) (hperm : uses2.Perm uses)
    (o : Option AstObject) :
    uses2.all (fun u => decide (u.obj ≠ o)) = uses.all (fun u => decide (u.obj ≠ o)) := by
  rw [Bool.eq_iff_iff]
  simp only [List.all_eq_true, decide_eq_true_eq]
  constructor
  · intro h u hu; exact h u (hperm.mem_iff.2 hu)
  · intro h u hu; exact h u (hperm.mem_iff.1 hu)

theorem visit_perm (ctx ctx2 : CheckerContext) (seed seed2 : Nat) (decl : FuncDecl)
    (hperm : ctx2.uses.Perm ctx.uses) :
    (VisitFuncDecl ctx2 seed2 decl).Perm (VisitFuncDecl ctx seed decl) := by
  unfold VisitFuncDecl
  cases decl.body with
  | none => exact List.Perm.refl _
  | some body =>
    cases decl.type.params with
    | none => exact List.Perm.refl _
    | some params =>
      simp only
      by_cases hnum : NumFields (some params) = 0
      · rw [if_pos hnum, if_pos hnum]
      · rw [if_neg hnum, if_neg hnum]
        cases collectParams params.list [] with
        | error p => exact List.Perm.refl _
        | ok m =>
          simp only
          refine (left_perm ctx2.uses m seed2).trans ?_
          refine List.Perm.trans ?_ (left_perm ctx.uses m seed).symm
          have hfun : (fun e : Option AstObject × Ident =>
              ctx2.uses.all (fun u => decide (u.obj ≠ e.1)))
              = (fun e => ctx.uses.all (fun u => decide (u.obj ≠ e.1))) :=
            funext (fun e => all_unused_perm ctx.uses ctx2.uses hperm e.1)
          rw [hfun]

theorem permutations_pair {α : Type} (x y : α) : [x, y].permutations = [[x, y], [y, x]] := by
  simp [List.permutations, List.permutationsAux_cons, List.permutationsAux2,
    List.permutationsAux_nil]

theorem range_one_pair {κ ν : Type} (x y : κ × ν) : GoMap.range 1 [x, y] = [y, x] := by
  unfold GoMap.range
  rw [permutations_pair]
  rfl

theorem perm_eq_of_length_le_one {α : Type} (l₁ l₂ : List α) (h : l₁.Perm l₂)
    (hlen : l₂.length ≤ 1) : l₁ = l₂ := by
  cases l₂ with
  | nil => exact h.eq_nil
  | cons a rest =>
    cases rest with
    | nil => exact h.eq_singleton
    | cons b rest2 => simp at hlen

/-- Counterexample to C14 as stated: on `func h(b float64, c string) {}`, with
both parameters unused, two visits over the same tree and oracle report the two
warnings in different orders when the range over the map yields its entries
in different orders. -/
theorem order_depends_on_map_range :
    VisitFuncDecl samples.ctx 0 samples.twoUnusedDecl
      = [warn samples.paramB, warn samples.paramC] ∧
    VisitFuncDecl samples.ctx 1 samples.twoUnusedDecl
      = [warn samples.paramC, warn samples.paramB] ∧
    VisitFuncDecl samples.ctx 0 samples.twoUnusedDecl
      ≠ VisitFuncDecl samples.ctx 1 samples.twoUnusedDecl := by
  have h0 : VisitFuncDecl samples.ctx 0 samples.twoUnusedDecl
      = [warn samples.paramB, warn samples.paramC] := rfl
  have h1 : VisitFuncDecl samples.ctx 1 samples.twoUnusedDecl
      = [warn samples.paramC, warn samples.paramB] := by
    have hrange : VisitFuncDecl samples.ctx 1 samples.twoUnusedDecl
        = (GoMap.range 1 [(some 2, samples.paramB), (some 3, samples.paramC)]).map
            (fun e => warn e.2) := rfl
    rw [hrange, range_one_pair]
    rfl
  refine ⟨h0, h1, ?_⟩
  intro h
  have h2 : [warn samples.paramB, warn samples.paramC]
      = [warn samples.paramC, warn samples.paramB] := by rw [← h0, ← h1]; exact h
  have h3 : warn samples.paramB = warn samples.paramC := (List.cons.inj h2).1
  have h4 : samples.paramB = samples.paramC := WarnNode.ident.inj (Warning.mk.inj h3).1
  exact absurd h4 (by decide)

/-- C14 (amended): two visits of the unused-parameter checker over the same
tree and oracle report the same warnings, each as often, whatever order the
range over the map takes in either visit; the sequences are identical when at
most one warning is reported, and with two or more unused parameters the
order is that of the map range, which Go leaves unspecified. (The other four
checkers range over no map: their result is a function of tree and oracle.) -/
theorem same_warnings_any_order (ctx : CheckerContext) (seed seed2 : Nat) (decl : FuncDecl) :
    (VisitFuncDecl ctx seed2 decl).Perm (VisitFuncDecl ctx seed decl) ∧
    ((VisitFuncDecl ctx seed decl).length ≤ 1 →
      VisitFuncDecl ctx seed2 decl = VisitFuncDecl ctx seed decl) :=
  ⟨visit_perm ctx ctx seed seed2 decl (List.Perm.refl _),
    fun hlen => perm_eq_of_length_le_one _ _
      (visit_perm ctx ctx seed seed2 decl (List.Perm.refl _)) hlen⟩

/-- C18: the parameters `VisitFuncDecl` reports are the same, each as often,
for every order in which the occurrences of the usage index are enumerated
(and every order of the final range over the map); and the scan that returns
as soon as the map is empty leaves what the scan carried to its end leaves,
the empty map in the case of the early return. -/
theorem usage_order_irrelevant (ctx : CheckerContext) (seed seed2 : Nat) (decl : FuncDecl)
    (uses2 : List Ident) (hperm : uses2.Perm ctx.uses) :
    (VisitFuncDecl (withUses ctx uses2) seed2 decl).Perm (VisitFuncDecl ctx seed decl) ∧
    (∀ m : GoMap (Option AstObject) Ident,
      (removeUsed ctx.uses m).getD [] = removeUsedFull ctx.uses m ∧
      (removeUsed ctx.uses m = none → removeUsedFull ctx.uses m = [])) := by
  refine ⟨visit_perm ctx (withUses ctx uses2) seed seed2 decl hperm, ?_⟩
  intro m
  have heq : (removeUsed ctx.uses m).getD [] = removeUsedFull ctx.uses m := by
    rw [removeUsed_spec, removeUsedFull_spec]
  refine ⟨heq, ?_⟩
  intro hnone
  rw [← heq, hnone]
  rfl

/-- Witness of C18: with the usage index `[a, x]` enumerated as `[x, a]`, the
visit of `func f(a int, b float64) {}` reports the same warnings. -/
theorem usage_order_irrelevant_witness :
    (VisitFuncDecl (withUses (withUses samples.ctx [⟨"a", 20, some 1⟩, ⟨"x", 21, some 9⟩])
        [⟨"x", 21, some 9⟩, ⟨"a", 20, some 1⟩]) 0 samples.unusedDecl).Perm
      (VisitFuncDecl (withUses samples.ctx [⟨"a", 20, some 1⟩, ⟨"x", 21, some 9⟩]) 0
        samples.unusedDecl) :=
  (usage_order_irrelevant (withUses samples.ctx [⟨"a", 20, some 1⟩, ⟨"x", 21, some 9⟩]) 0 0
    samples.unusedDecl [⟨"x", 21, some 9⟩, ⟨"a", 20, some 1⟩] (List.Perm.swap _ _ _)).1

end blankParamChecker

namespace boolFuncPrefixChecker

theorem single_result_field (results : Option FieldList) (h : NumFields results = 1) :
    ∃ fl first, results = some fl ∧ fl.list = [first] ∧ first.names.length ≤ 1 := by
  cases results with
  | none => simp [NumFields] at h
  | some fl =>
    cases hlist : fl.list with
    | nil => simp [NumFields, hlist] at h
    | cons first rest =>
      cases rest with
      | nil =>
        refine ⟨fl, first, rfl, hlist, ?_⟩
        simp only [NumFields, hlist, List.foldl_cons, List.foldl_nil, Nat.zero_add] at h
        by_cases h0 : first.names.length = 0
        · omega
        · rw [if_neg h0] at h; omega
      | cons second rest2 =>
        have hge := numFields_foldl_ge fl.list 0
        simp only [NumFields] at h
        rw [h, hlist] at hge
        simp at hge

/-- C20: `VisitFuncDecl` never panics: the access `results.List[0]` comes after
the test `NumFields() != 1`, and a result list that counts one field has
exactly one field, declaring at most one name. A declaration without result
list, or with two or more results counted by names, as in `(a, b bool)`, gets
no warning. -/
theorem never_indexes_out_of_range (ctx : CheckerContext) (decl : FuncDecl) :
    (∃ ws, VisitFuncDecl ctx decl = .done ws) ∧
    (NumFields decl.type.results = 1 →
      ∃ fl first, decl.type.results = some fl ∧ fl.list = [first] ∧
        first.names.length ≤ 1) ∧
    (decl.type.results = none → VisitFuncDecl ctx decl = .done []) ∧
    (2 ≤ NumFields decl.type.results → VisitFuncDecl ctx decl = .done []) ∧
    VisitFuncDecl ctx samples.twoNamesDecl = .done [] := by
  refine ⟨?_, single_result_field decl.type.results, ?_, ?_, rfl⟩
  · by_cases h : isFlagged ctx decl
    · exact ⟨_, visit_of_flagged ctx decl h⟩
    · exact ⟨_, visit_of_not_flagged ctx decl h⟩
  · intro hnone
    apply visit_of_not_flagged
    rintro ⟨⟨_, hr, _⟩, _⟩
    rw [hnone] at hr
    simp [NumFields] at hr
  · intro hge
    apply visit_of_not_flagged
    rintro ⟨⟨_, hr, _⟩, _⟩
    omega

end boolFuncPrefixChecker

/-! ## sqlRowsClose: the order of the statements and the panic -/

namespace sqlRowsCloseChecker

theorem checkLocals_panics_iff (ctx : CheckerContext) (rv cv : List (Option Object))
    (ls : List (Option Object)) (ws : List Warning) :
    (∃ ws2, checkLocals ctx rv cv ls ws = .panic ws2)
      ↔ (none ∈ ls ∧ (!varInList none rv && !varInList none cv) = true) := by
  induction ls generalizing ws with
  | nil =>
    constructor
    · rintro ⟨ws2, h⟩
      simp [checkLocals] at h
    · rintro ⟨h, _⟩
      cases h
  | cons l ls ih =>
    unfold checkLocals
    by_cases hl : (!varInList l rv && !varInList l cv) = true
    · rw [if_pos hl]
      cases l with
      | none =>
        constructor
        · intro _; exact ⟨List.mem_cons_self _ _, hl⟩
        · intro _; exact ⟨ws, rfl⟩
      | some obj =>
        simp only
        rw [ih]
        constructor
        · rintro ⟨h1, h2⟩; exact ⟨List.mem_cons_of_mem _ h1, h2⟩
        · rintro ⟨h1, h2⟩
          rcases List.mem_cons.1 h1 with h | h
          · cases h
          · exact ⟨h, h2⟩
    · rw [if_neg hl, ih]
      constructor
      · rintro ⟨h1, h2⟩; exact ⟨List.mem_cons_of_mem _ h1, h2⟩
      · rintro ⟨h1, h2⟩
        rcases List.mem_cons.1 h1 with h | h
        · rw [← h] at hl; exact absurd h2 hl
        · exact ⟨h, h2⟩

theorem panics_perm (ctx : CheckerContext) (name : Ident) (type : FuncType)
    (body body2 : List Stmt) (hperm : body.Perm body2) :
    (∃ ws, VisitFuncDecl ctx ⟨name, type, some body⟩ = .panic ws)
      ↔ (∃ ws, VisitFuncDecl ctx ⟨name, type, some body2⟩ = .panic ws) := by
  unfold VisitFuncDecl
  simp only
  rw [checkLocals_panics_iff, checkLocals_panics_iff]
  have hun := isUnhandled_perm ctx body body2 hperm none
  unfold isUnhandled at hun
  rw [hun, scanBody_localVars, scanBody_localVars]
  have htargets : (cursorTargets ctx body).Perm (cursorTargets ctx body2) :=
    hperm.flatMap_right _
  rw [(htargets.map (getType ctx)).mem_iff]

end sqlRowsCloseChecker

/-! ## sqlRowsClose: the lists of the scan are the returned and the closed declarations -/

namespace sqlRowsCloseChecker

theorem getCloseSelectorExpr_inv (ctx : CheckerContext) (x : Expr) (ss : Expr × Ident)
    (h : getCloseSelectorExpr ctx x = some ss) :
    ∃ args ell, x = .call (.selector ss.1 ss.2) args ell ∧
      ctx.qualifiedName (.ident ss.2) = "Close" := by
  unfold getCloseSelectorExpr at h
  split at h
  · rename_i recv sel args ell
    split at h
    · rename_i hclose
      cases h
      exact ⟨args, ell, rfl, hclose⟩
    · cases h
  · cases h

theorem appendClosed_inv (ctx : CheckerContext) (list : List Stmt) (v : Option Object)
    (h : v ∈ appendClosed ctx [] list) :
    ∃ x ss, Stmt.exprStmt x ∈ list ∧ getCloseSelectorExpr ctx x = some ss ∧
      getType ctx ss.1 = v := by
  induction list with
  | nil => simp [appendClosed] at h
  | cons s rest ih =>
    rw [appendClosed_cons, appendClosed_eq] at h
    rcases List.mem_append.1 h with h1 | h2
    · cases s with
      | exprStmt x =>
        simp only at h1
        cases hsel : getCloseSelectorExpr ctx x with
        | none => rw [hsel] at h1; simp at h1
        | some ss =>
          rw [hsel] at h1
          simp only [List.nil_append, List.mem_singleton] at h1
          exact ⟨x, ss, List.mem_cons_self _ _, hsel, h1.symm⟩
      | _ => simp at h1
    · obtain ⟨x, ss, hx, hsel, hv⟩ := ih h2
      exact ⟨x, ss, List.mem_cons_of_mem _ hx, hsel, hv⟩

theorem lists_handled (ctx : CheckerContext)
    (hq : ∀ id : Ident, ctx.qualifiedName (.ident id) = id.name)
    (body : List Stmt) (d : Object)
    (h : some d ∈ (scanBody ctx body).returnVars ∨ some d ∈ (scanBody ctx body).closeVars) :
    Handled ctx body d := by
  rw [scanBody_eq] at h
  simp only [List.mem_flatMap] at h
  rcases h with ⟨b, hb, hin⟩ | ⟨b, hb, hin⟩
  · left
    unfold stmtVars scanStmt at hin
    cases b with
    | ret results =>
      simp only [appendRows_eq ctx results [], List.nil_append, List.mem_map,
        List.mem_filter, decide_eq_true_eq] at hin
      obtain ⟨r, ⟨hr, hty⟩, hd⟩ := hin
      exact ⟨results, r, hb, hr, hty, hd⟩
    | assign lhs rhs => simp at hin
    | exprStmt x =>
      simp only at hin
      split at hin <;> simp at hin
    | deferStmt fn args ell =>
      simp only at hin
      split at hin
      · split at hin <;> simp at hin
      · simp at hin
      · simp at hin
    | range k v x bd => simp at hin
    | block l => simp at hin
    | other k cs => simp at hin
  · right
    unfold stmtVars scanStmt at hin
    cases b with
    | ret results => simp at hin
    | assign lhs rhs => simp at hin
    | exprStmt x =>
      left
      simp only at hin
      cases hsel : getCloseSelectorExpr ctx x with
      | none => rw [hsel] at hin; simp at hin
      | some ss =>
        rw [hsel] at hin
        simp only [List.nil_append, List.mem_singleton] at hin
        obtain ⟨args, ell, hx, hclose⟩ := getCloseSelectorExpr_inv ctx x ss hsel
        rw [hq] at hclose
        exact ⟨ss.1, ss.2, args, ell, hx ▸ hb, hclose, hin.symm⟩
    | deferStmt fn args ell =>
      right
      cases fn with
      | selector x sel =>
        left
        simp only at hin
        by_cases hclose : ctx.qualifiedName (.ident sel) = "Close"
        · rw [if_pos hclose] at hin
          simp only [List.nil_append, List.mem_singleton] at hin
          rw [hq] at hclose
          exact ⟨x, sel, args, ell, hb, hclose, hin.symm⟩
        · rw [if_neg hclose] at hin
          simp at hin
      | funcLit t list =>
        right
        simp only at hin
        obtain ⟨x, ss, hx, hsel, hv⟩ := appendClosed_inv ctx list (some d) hin
        obtain ⟨cargs, cell, hxe, hclose⟩ := getCloseSelectorExpr_inv ctx x ss hsel
        rw [hq] at hclose
        exact ⟨t, list, args, ell, ss.1, ss.2, cargs, cell, hb, hxe ▸ hx, hclose, hv⟩
      | ident id => simp at hin
      | index x i => simp at hin
      | call f a e => simp at hin
      | other k cs => simp at hin
    | range k v x bd => simp at hin
    | block l => simp at hin
    | other k cs => simp at hin

theorem mem_of_varInList (v : Option Object) (l : List (Option Object))
    (h : varInList v l = true) : v ∈ l := by
  unfold varInList at h
  simp only [List.any_eq_true, decide_eq_true_eq] at h
  obtain ⟨r, hr, rfl⟩ := h
  exact hr

theorem isUnhandled_iff (ctx : CheckerContext)
    (hq : ∀ id : Ident, ctx.qualifiedName (.ident id) = id.name)
    (body : List Stmt) (d : Object) :
    isUnhandled ctx body (some d) = true ↔ ¬ Handled ctx body d := by
  unfold isUnhandled
  constructor
  · intro hun hh
    rcases handled_in_lists ctx hq body d hh with h | h
    · rw [varInList_of_mem _ _ h] at hun; simp at hun
    · rw [varInList_of_mem _ _ h] at hun; simp at hun
  · intro hnh
    cases hr : varInList (some d) (scanBody ctx body).returnVars with
    | true => exact absurd (lists_handled ctx hq body d (Or.inl (mem_of_varInList _ _ hr))) hnh
    | false =>
      cases hc : varInList (some d) (scanBody ctx body).closeVars with
      | true => exact absurd (lists_handled ctx hq body d (Or.inr (mem_of_varInList _ _ hc))) hnh
      | false => rfl

theorem filter_filterMap_resolved (p : Option Object → Bool) (g : Expr → Option Object)
    (ts : List Expr) :
    (((ts.map g).filter p).filterMap (fun l => l))
      = (ts.filterMap g).filter (fun d => p (some d)) := by
  induction ts with
  | nil => rfl
  | cons t ts ih =>
    cases hg : g t with
    | none =>
      by_cases hp : p none = true
      · simp [List.filter_cons, hg, hp, ih]
      · simp [List.filter_cons, hg, hp, ih]
    | some d =>
      by_cases hp : p (some d) = true
      · simp [List.filter_cons, hg, hp, ih]
      · simp [List.filter_cons, hg, hp, ih]

end sqlRowsCloseChecker

namespace sqlRowsCloseChecker

/-- C11 (amended): for every function body in which every target with the rows
type of a top-level assignment resolves to a declaration (and with
`qualifiedName` giving the name of a plain identifier), `VisitFuncDecl`
reports exactly one warning for each such target, counted per occurrence and
in source order, whose declaration is neither returned nor closed at the top
level of the body, in the sense (a) to (d) of `Handled`, and no other warning;
a declaration that is the target of several assignments is warned about once
per assignment. -/
theorem one_warning_per_unhandled_target (ctx : CheckerContext) (decl : FuncDecl)
    (body : List Stmt)
    (hbody : decl.body = some body)
    (hq : ∀ id : Ident, ctx.qualifiedName (.ident id) = id.name)
    (hres : ∀ l ∈ cursorTargets ctx body, getType ctx l ≠ none) :
    ∃ unhandled : Object → Bool,
      (∀ d, unhandled d = true ↔ ¬ Handled ctx body d) ∧
      VisitFuncDecl ctx decl
        = .done ((((cursorTargets ctx body).filterMap (getType ctx)).filter unhandled).map
            (fun d => ⟨.scope (ctx.objParent d),
              "local variable db.Rows have not Close call", []⟩)) := by
  refine ⟨fun d => isUnhandled ctx body (some d), isUnhandled_iff ctx hq body, ?_⟩
  rw [visit_of_resolved ctx decl body hbody hres, filter_filterMap_resolved]
  rfl

/-- Witness of C11 (amended): the body `rows, _ := db.Query()`, in which
nothing returns or closes `rows`, gets exactly one warning. -/
theorem one_warning_per_unhandled_target_witness :
    (∃ unhandled : Object → Bool,
      (∀ d, unhandled d = true ↔
        ¬ Handled samples.ctx [samples.queryAssign (.ident (samples.id "rows" 1))] d) ∧
      VisitFuncDecl samples.ctx samples.unclosedDecl
        = .done ((((cursorTargets samples.ctx
            [samples.queryAssign (.ident (samples.id "rows" 1))]).filterMap
              (getType samples.ctx)).filter unhandled).map
            (fun d => ⟨.scope (samples.ctx.objParent d),
              "local variable db.Rows have not Close call", []⟩))) ∧
    VisitFuncDecl samples.ctx samples.unclosedDecl = .done [warnLocal samples.ctx 4] :=
  ⟨one_warning_per_unhandled_target samples.ctx samples.unclosedDecl
    [samples.queryAssign (.ident (samples.id "rows" 1))] rfl (fun _ => rfl) (by
      intro l hl
      have h2 : l ∈ [Expr.ident (samples.id "rows" 1)] := hl
      rw [List.mem_singleton.1 h2]
      exact fun h => nomatch h), rfl⟩

end sqlRowsCloseChecker

end checkers
